import Mathlib

/-!
Shallow embedding of the SmartCompare AI core (multi-platform crawl
orchestrator and resilient classification pipeline) and proofs about it.

The embedding follows the JavaScript sources:
* `backend/src/services/smartLLMService.js` — provider chain, retry loops,
  response parsing/repair, keyword fallback, provider health bookkeeping;
* `backend/src/services/crawlers/crawlerManager.js` — crawl fan-out and
  merge, `tryLLMCategorization`;
* the classification cache module (`ClassificationCache`).

Modelling conventions:
* JavaScript numbers that hold non-negative integers (prices, counters,
  timestamps in ms) are `Nat`; JS float division followed by `Math.round`
  is modelled exactly on rationals via `jsRound`.
* `Date.now()` is a `now : Nat` parameter, constant within one call.
* A JS `Map` is an insertion-ordered association list with unique keys.
* External network calls are oracles: an environment records, per provider
  and per attempt number, what the call would yield.
* A provider's free-form text response is abstracted at the boundary of
  `JSON.parse`: either a structured `categories` payload was recoverable
  (`LLMResponse.strict`) or the regex-based degraded extraction applies
  (`LLMResponse.degraded` with the extracted category-name matches).
* Products carry the fields the specification reasons about (name, price,
  platform); the remaining carried-through fields (id, url, image, …) are
  defaulted in the source exactly like `name`/`platform` and are omitted.
-/

namespace SmartCompare

/-- A scraped product record, restricted to the fields the classification
pipeline inspects: display name, integer price (minor units, `0` = missing,
matching JS falsiness of `product.price`), and source platform id. -/
structure Product where
  name : String
  price : Nat
  platform : String
  deriving Repr, DecidableEq

/-- Model of `Math.round (sum / len)` for natural `sum`, `len`, computed exactly:
`⌊sum / len + 1/2⌋ = (2 * sum + len) / (2 * len)` (half rounds up, as in JS). -/
def jsRound (sum len : Nat) : Nat :=
  (2 * sum + len) / (2 * len)

/-- Model of `[...new Set(l)]`: deduplicate keeping the first occurrence of each
element, in insertion order. -/
def jsSetDedup : List String → List String
  | [] => []
  | x :: xs => x :: jsSetDedup (xs.filter (fun y => y != x))
termination_by l => l.length
decreasing_by
  simp only [List.length_cons]
  exact Nat.lt_succ_of_le (List.length_filter_le _ _)

/-- Adding one element to a JS `Set` materialised as an insertion-ordered
list (`set.add(x)`). -/
def jsSetAdd (l : List String) (x : String) : List String :=
  if x ∈ l then l else l ++ [x]

/-- The field-defaulting applied when the source rebuilds a product object
(`name: p.name || '未知商品'`, `platform: p.platform || 'unknown'`,
`price: p.price || 0`); restricted to the modelled fields. -/
def normalizeProduct (p : Product) : Product :=
  { name := if p.name = "" then "未知商品" else p.name
    price := p.price
    platform := if p.platform = "" then "unknown" else p.platform }

/-- Derived price statistics of a category. -/
structure PriceRange where
  min : Nat
  max : Nat
  avg : Nat
  deriving Repr, DecidableEq

/-- A category as produced by any classification path. -/
structure Category where
  name : String
  description : String
  totalProducts : Nat
  priceRange : PriceRange
  platforms : List String
  products : List Product
  deriving Repr, DecidableEq

/-- Model of `products.filter(p => p.price > 0).map(p => p.price)`. -/
def positivePrices (ps : List Product) : List Nat :=
  (ps.filter (fun p => 0 < p.price)).map (fun p => p.price)

/-- Model of `Math.min(...prices)` over a non-empty list (head-seeded fold). -/
def mathMinList : List Nat → Nat
  | [] => 0
  | q :: qs => qs.foldl Nat.min q

/-- Model of `Math.max(...prices)` over a non-empty list (head-seeded fold). -/
def mathMaxList : List Nat → Nat
  | [] => 0
  | q :: qs => qs.foldl Nat.max q

/-- The statistics block shared by `createCategoryFromProducts` and the
validated-category path of `parseClassificationResult`:
min/max/avg over the members' positive prices, `0` when there are none,
`avg = Math.round(sum / count)` over the positive prices. -/
def computePriceRange (ps : List Product) : PriceRange :=
  let prices := positivePrices ps
  { min := if prices.isEmpty then 0 else mathMinList prices
    max := if prices.isEmpty then 0 else mathMaxList prices
    avg := if prices.isEmpty then 0 else jsRound prices.sum prices.length }

/-! ## Classification cache (`ClassificationCache`) -/

/-- The query-context discriminator used in cache keys. -/
structure QueryContext where
  originalQuery : String
  mainCategory : String
  deriving Repr, DecidableEq

/-- One stored cache item. -/
structure CacheEntry where
  productName : String
  category : String
  queryContext : Option String
  createdAt : Nat
  expireAt : Nat
  deriving Repr, DecidableEq

/-- Cache configuration (TTL in ms, capacity). -/
structure CacheConfig where
  ttl : Nat
  maxSize : Nat
  deriving Repr, DecidableEq

/-- Cache state: the JS `Map` (insertion-ordered, unique keys) plus the
hit/miss/set counters. -/
structure CacheState where
  entries : List (String × CacheEntry)
  hits : Nat
  misses : Nat
  sets : Nat
  deriving Repr, DecidableEq

/-- Model of `generateCacheKey`: the raw key `productName + "_" + contextStr`.
The source feeds this raw key through MD5; the hash is modelled as an
injective encoding, so the raw key itself serves as the map key. -/
def generateCacheKey (productName : String) (qc : Option QueryContext) : String :=
  let contextStr := match qc with
    | some c => c.originalQuery ++ "_" ++ c.mainCategory
    | none => "default"
  productName ++ "_" ++ contextStr

/-- Model of `Map.prototype.set` on an association list: replace in place if the key
exists, otherwise append. -/
def mapSet {α : Type} : List (String × α) → String → α → List (String × α)
  | [], k, v => [(k, v)]
  | (k', v') :: rest, k, v =>
    if k' = k then (k, v) :: rest else (k', v') :: mapSet rest k v

/-- Model of `Map.prototype.delete` on an association list. -/
def mapDelete {α : Type} (l : List (String × α)) (k : String) : List (String × α) :=
  l.filter (fun kv => kv.1 != k)

/-- Model of `ClassificationCache.get`: miss on absence; read-time expiry check
(`Date.now() > item.expireAt` deletes the entry and misses); otherwise a
hit returning the stored label. -/
def cacheGet (now : Nat) (st : CacheState) (productName : String)
    (qc : Option QueryContext) : Option String × CacheState :=
  let key := generateCacheKey productName qc
  match List.lookup key st.entries with
  | none => (none, { st with misses := st.misses + 1 })
  | some item =>
    if item.expireAt < now then
      (none, { st with entries := mapDelete st.entries key, misses := st.misses + 1 })
    else
      (some item.category, { st with hits := st.hits + 1 })

/-- The scan inside `evictOldest`: starting from `oldestTime = Date.now()`,
remember the first key whose `createdAt` strictly improves the running
minimum. -/
def evictScan (now : Nat) (entries : List (String × CacheEntry)) : Option String :=
  (entries.foldl
    (fun (acc : Option String × Nat) kv =>
      if kv.2.createdAt < acc.2 then (some kv.1, kv.2.createdAt) else acc)
    (none, now)).1

/-- Model of `ClassificationCache.evictOldest`: delete the scanned key, if any. -/
def evictOldest (now : Nat) (entries : List (String × CacheEntry)) :
    List (String × CacheEntry) :=
  match evictScan now entries with
  | some k => mapDelete entries k
  | none => entries

/-- Model of `ClassificationCache.set`: store the entry with
`expireAt = Date.now() + ttl`, bump the set counter, then run eviction
when `size > maxSize`. -/
def cacheSet (cfg : CacheConfig) (now : Nat) (st : CacheState)
    (productName category : String) (qc : Option QueryContext) : CacheState :=
  let key := generateCacheKey productName qc
  let entry : CacheEntry :=
    { productName := productName
      category := category
      queryContext := qc.map (fun c => c.originalQuery)
      createdAt := now
      expireAt := now + cfg.ttl }
  let entries := mapSet st.entries key entry
  let st' : CacheState := { st with entries := entries, sets := st.sets + 1 }
  if cfg.maxSize < st'.entries.length then
    { st' with entries := evictOldest now st'.entries }
  else
    st'

/-- Keys of the cache map are pairwise distinct — the invariant a JS `Map`
provides by construction. -/
def CacheKeysDistinct (st : CacheState) : Prop :=
  (st.entries.map (fun kv => kv.1)).Nodup

/-! ## LLM response parsing (`parseClassificationResult` and helpers) -/

/-- One category object of a strictly parsed provider response. The code
reads only `name`, `description` and `productIndexes`; a provider-reported
price range may be present but is never consulted. Indexes are raw JS
numbers, possibly negative or out of range. -/
structure ParsedCat where
  name : String
  description : String
  productIndexes : List Int
  reportedPriceRange : Option PriceRange
  deriving Repr, DecidableEq

/-- What `parseClassificationResult` can recover from the raw provider
text: either a repaired-parse success carrying a `categories` array
(`strict`), or any of the degraded situations — no `{...}` found, repair
failure, missing `categories` array — in which case the regex extraction
of `fallbackParseJSON` sees the listed `"name": "..."` matches. -/
inductive LLMResponse where
  | strict (cats : List ParsedCat)
  | degraded (names : List String)
  deriving Repr, DecidableEq

/-- Model of `createCategoryFromProducts`: category built directly from a product
slice; statistics from the raw members, members normalised. -/
def createCategoryFromProducts (name : String) (ps : List Product) : Category :=
  { name := name
    description := name ++ "相關商品"
    totalProducts := ps.length
    priceRange := computePriceRange ps
    platforms := jsSetDedup (ps.map (fun p => p.platform))
    products := ps.map normalizeProduct }

/-- Model of `fallbackParseJSON`: with `k` extracted name matches, distribute the
batch over `k` categories by the slice
`[⌊n·i/k⌋, ⌊n·(i+1)/k⌋)`; with none, one catch-all category `所有商品`
holding every product. -/
def fallbackParseJSON (names : List String) (ps : List Product) : List Category :=
  if 0 < names.length then
    names.enum.map (fun (i, nm) =>
      let s := ps.length * i / names.length
      let e := ps.length * (i + 1) / names.length
      createCategoryFromProducts nm ((ps.drop s).take (e - s)))
  else
    [createCategoryFromProducts "所有商品" ps]

/-- Index validation of the strict path: keep indexes in `[0, n)`, drop the
rest with a warning, and fetch the batch product at each surviving index. -/
def selectByIndexes (ps : List Product) (idxs : List Int) : List Product :=
  idxs.filterMap (fun i =>
    if 0 ≤ i ∧ i < (ps.length : Int) then
      (ps.get? i.toNat).map normalizeProduct
    else
      none)

/-- One validated category of the strict path: members from the index
list, name/description defaulted, statistics recomputed from the actual
members (the provider-reported range is ignored). -/
def validatedCategory (defaultCategory : String) (index : Nat) (ps : List Product)
    (cat : ParsedCat) : Category :=
  let members := selectByIndexes ps cat.productIndexes
  { name := if cat.name = "" then defaultCategory ++ " " ++ toString (index + 1) else cat.name
    description :=
      if cat.description = "" then
        (if cat.name = "" then "商品" else cat.name) ++ "分類"
      else cat.description
    totalProducts := members.length
    priceRange := computePriceRange members
    platforms := jsSetDedup (members.map (fun p => p.platform))
    products := members }

/-- Model of `parseClassificationResult`: strict responses go through per-category
validation; every degraded situation funnels into `fallbackParseJSON`. -/
def parseClassificationResult (defaultCategory : String) (r : LLMResponse)
    (ps : List Product) : List Category :=
  match r with
  | .strict cats => cats.enum.map (fun (i, c) => validatedCategory defaultCategory i ps c)
  | .degraded names => fallbackParseJSON names ps

/-! ## Keyword matching (`keywordMatch`, `useKeywordMatching`) -/

/-- One non-brand entry of the `KEYWORD_RULES` table. -/
structure KeywordRule where
  keywords : List String
  category : String
  subcategories : List (String × List String)
  deriving Repr, DecidableEq

/-- The `KEYWORD_RULES` configuration table (insertion-ordered object
entries): the `BRANDS` map and the remaining rule entries. The table lives
in `config/classification.js`, which is configuration data; it is a
parameter of the embedding. -/
structure KeywordRules where
  brands : List (String × String)
  rules : List (String × KeywordRule)
  deriving Repr, DecidableEq

/-- Model of `String.prototype.includes`. -/
def jsIncludes (s sub : String) : Bool :=
  s.toList.tails.any (fun t => sub.toList.isPrefixOf t)

/-- Model of `keywordMatch(productName, searchQuery)`: the turtle-query special
case, then the brand table, then the first matching rule (preferring a
matching subcategory), and otherwise the configured default category. -/
def keywordMatch (rules : KeywordRules) (defaultCategory : String)
    (productName searchQuery : String) : String :=
  let lowerName := productName.toLower
  let lowerQuery := searchQuery.toLower
  if searchQuery ≠ "" ∧ (jsIncludes lowerQuery "烏龜" ∨ jsIncludes lowerQuery "龜")
      ∧ (jsIncludes lowerName "缸" ∨ jsIncludes lowerName "過濾"
          ∨ jsIncludes lowerName "燈" ∨ jsIncludes lowerName "飼料") then
    "寵物用品"
  else
    match rules.brands.find? (fun b => jsIncludes lowerName b.1) with
    | some b => b.2
    | none =>
      match rules.rules.find? (fun r => r.2.keywords.any (fun kw => jsIncludes lowerName kw)) with
      | some r =>
        match r.2.subcategories.find? (fun sc => sc.2.any (fun kw => jsIncludes lowerName kw)) with
        | some sc => sc.1
        | none => r.2.category
      | none => defaultCategory

/-- The mutable accumulator of `useKeywordMatching`'s grouping loop.
`minPrice = none` models the `Infinity` seed; `maxPrice` is seeded `0`. -/
structure KGroup where
  name : String
  totalProducts : Nat
  minPrice : Option Nat
  maxPrice : Nat
  platforms : List String
  products : List Product
  deriving Repr, DecidableEq

/-- A freshly created group for a category name. -/
def newKGroup (cat : String) : KGroup :=
  { name := cat, totalProducts := 0, minPrice := none, maxPrice := 0
    platforms := [], products := [] }

/-- One loop iteration applied to the matched group: bump the counter, push
the product, record the platform, and fold the price into min/max when it
is truthy (non-zero). -/
def updateKGroup (g : KGroup) (p : Product) : KGroup :=
  let g' : KGroup :=
    { g with
      totalProducts := g.totalProducts + 1
      products := g.products ++ [p]
      platforms := jsSetAdd g.platforms p.platform }
  if p.price ≠ 0 then
    { g' with
      minPrice := some (match g.minPrice with
        | none => p.price
        | some m => Nat.min m p.price)
      maxPrice := Nat.max g.maxPrice p.price }
  else g'

/-- Apply a product to the (insertion-ordered) group list: update the
group with the matching name, or create it at the end. -/
def addToGroups : List KGroup → String → Product → List KGroup
  | [], cat, p => [updateKGroup (newKGroup cat) p]
  | g :: gs, cat, p =>
    if g.name = cat then updateKGroup g p :: gs else g :: addToGroups gs cat p

/-- The grouping loop of `useKeywordMatching` over the whole batch. -/
def buildGroups (rules : KeywordRules) (defaultCategory : String) (query : String)
    (ps : List Product) : List KGroup :=
  ps.foldl (fun gs p => addToGroups gs (keywordMatch rules defaultCategory p.name query) p) []

/-- The final per-group conversion of `useKeywordMatching`: `Infinity` min
collapses to `0`, `avg = Math.round(Σ (p.price || 0) / count)` where the
divisor is the number of ALL members (not only the positively priced). -/
def kgroupToCategory (g : KGroup) : Category :=
  let sum := (g.products.map (fun p => p.price)).sum
  { name := g.name
    description := "基於關鍵字匹配的 " ++ g.name ++ " 分類"
    totalProducts := g.totalProducts
    priceRange :=
      { min := g.minPrice.getD 0
        max := g.maxPrice
        avg := jsRound sum g.products.length }
    platforms := g.platforms
    products := g.products }

/-- Model of `useKeywordMatching`: group by `keywordMatch`, then convert each group
to a category. Never fails. -/
def useKeywordMatching (rules : KeywordRules) (defaultCategory : String)
    (ps : List Product) (query : String) : List Category :=
  (buildGroups rules defaultCategory query ps).map kgroupToCategory

/-! ## JSON repair (`repairJSON`)

The built-in `JSON.parse` is an external library call; it is modelled as a
parameter `parse : String → Option α`. The repair strategies themselves
are string transformations and are embedded directly. -/

/-- Matcher for the tail of repair strategy 1's pattern `,(\s*[}\]])`:
consume whitespace, then a closing brace/bracket. -/
def matchWsBracket : List Char → Option (List Char × Char × List Char)
  | [] => none
  | c :: rest =>
    if c = '}' ∨ c = ']' then some ([], c, rest)
    else if c = ' ' ∨ c = '\t' ∨ c = '\n' ∨ c = '\r' then
      match matchWsBracket rest with
      | some (ws, b, r) => some (c :: ws, b, r)
      | none => none
    else none

theorem matchWsBracket_length_lt :
    ∀ {l ws b r}, matchWsBracket l = some (ws, b, r) → r.length < l.length := by
  intro l
  induction l with
  | nil => intro ws b r h; simp [matchWsBracket] at h
  | cons c rest ih =>
    intro ws b r h
    simp only [matchWsBracket] at h
    by_cases hb : c = '}' ∨ c = ']'
    · simp [hb] at h
      obtain ⟨-, -, hr⟩ := h
      simp [← hr]
    · simp [hb] at h
      by_cases hw : c = ' ' ∨ c = '\t' ∨ c = '\n' ∨ c = '\r'
      · simp [hw] at h
        cases hm : matchWsBracket rest with
        | none => simp [hm] at h
        | some t =>
          obtain ⟨ws', b', r'⟩ := t
          simp [hm] at h
          obtain ⟨-, -, hr⟩ := h
          subst hr
          exact Nat.lt_succ_of_lt (ih hm)
      · simp [hw] at h

/-- Repair strategy 1, `repaired.replace(/,(\s*[}\]])/g, '$1')`: drop a
comma standing before (whitespace and) a closing brace/bracket; scanning
resumes after each match. -/
def removeTrailingCommas (l : List Char) : List Char :=
  match l with
  | [] => []
  | c :: rest =>
    if c = ',' then
      match h : matchWsBracket rest with
      | some (ws, b, r) => ws ++ b :: removeTrailingCommas r
      | none => ',' :: removeTrailingCommas rest
    else c :: removeTrailingCommas rest
termination_by l.length
decreasing_by
  · exact Nat.lt_succ_of_lt (matchWsBracket_length_lt h)
  · simp
  · simp

/-- Scan to the closing quote of repair strategy 2's group `("[^"]*")`. -/
def spanToQuote : List Char → Option (List Char × List Char)
  | [] => none
  | c :: rest =>
    if c = '"' then some ([], rest)
    else
      match spanToQuote rest with
      | some (body, r) => some (c :: body, r)
      | none => none

theorem spanToQuote_length_lt :
    ∀ {l body r}, spanToQuote l = some (body, r) → r.length < l.length := by
  intro l
  induction l with
  | nil => intro body r h; simp [spanToQuote] at h
  | cons c rest ih =>
    intro body r h
    simp only [spanToQuote] at h
    by_cases hq : c = '"'
    · simp [hq] at h
      obtain ⟨-, hr⟩ := h
      simp [← hr]
    · simp [hq] at h
      cases hm : spanToQuote rest with
      | none => simp [hm] at h
      | some t =>
        obtain ⟨body', r'⟩ := t
        simp [hm] at h
        obtain ⟨-, hr⟩ := h
        subst hr
        exact Nat.lt_succ_of_lt (ih hm)

/-- The run `([^",}\]]*)` that strategy 2 deletes after a closed string. -/
def dropJunkRun (l : List Char) : List Char :=
  l.dropWhile (fun c => !(c == '"' || c == ',' || c == '}' || c == ']'))

theorem dropJunkRun_length_le (l : List Char) : (dropJunkRun l).length ≤ l.length :=
  List.Sublist.length_le (List.dropWhile_sublist _)

/-- Repair strategy 2, `replace(/("[^"]*")([^",}\]]*)/g, '$1')`: keep each
closed quoted string, delete the junk run that follows it. -/
def fixOpenStrings (l : List Char) : List Char :=
  match l with
  | [] => []
  | c :: rest =>
    if c = '"' then
      match h : spanToQuote rest with
      | some (body, r) => '"' :: (body ++ '"' :: fixOpenStrings (dropJunkRun r))
      | none => '"' :: fixOpenStrings rest
    else c :: fixOpenStrings rest
termination_by l.length
decreasing_by
  · exact Nat.lt_succ_of_lt
      (Nat.lt_of_le_of_lt (dropJunkRun_length_le _) (spanToQuote_length_lt h))
  · simp
  · simp

/-- Occurrences of a character. -/
def countChar (l : List Char) (c : Char) : Nat :=
  (l.filter (fun x => x == c)).length

/-- Repair strategy 3: append the missing closing braces. -/
def balanceBraces (l : List Char) : List Char :=
  l ++ List.replicate (countChar l '{' - countChar l '}') '}'

/-- Repair strategy 4: append the missing closing brackets. -/
def balanceBrackets (l : List Char) : List Char :=
  l ++ List.replicate (countChar l '[' - countChar l ']') ']'

/-- Repair strategy 5's class `[\u0000-\u001F\u007F-\u009F]`. -/
def isStrippedCtl (c : Char) : Bool :=
  c.toNat ≤ 0x1F || (0x7F ≤ c.toNat && c.toNat ≤ 0x9F)

/-- Repair strategy 5: remove the control characters. -/
def stripControlChars (l : List Char) : List Char :=
  l.filter (fun c => !(isStrippedCtl c))

/-- The bounded repair cascade applied when strict parsing fails:
strategies 1–5 in source order. -/
def repairPipeline (s : String) : String :=
  String.mk (stripControlChars (balanceBrackets (balanceBraces
    (fixOpenStrings (removeTrailingCommas s.toList)))))

/-- Model of `repairJSON`: return the strict parse when it succeeds; otherwise
parse the repaired string (the source throws when that also fails, i.e.
`none` here). -/
def repairJSON {α : Type} (parse : String → Option α) (s : String) : Option α :=
  match parse s with
  | some v => some v
  | none => parse (repairPipeline s)

/-! ## Provider chain (`SmartLLMService`) -/

/-- What one Gemini HTTP attempt yields: a usable response text, or any
failure (timeout, HTTP error, rate limit, malformed envelope) — all of
which the retry loop treats alike, up to backoff timing. -/
inductive GeminiAttempt where
  | ok (r : LLMResponse)
  | fail
  deriving Repr, DecidableEq

/-- What one Ollama HTTP attempt yields. `connRefused` is the
`ECONNREFUSED` case, which aborts the retry loop immediately. -/
inductive OllamaAttempt where
  | ok (r : LLMResponse)
  | fail
  | connRefused
  deriving Repr, DecidableEq

/-- Gemini section of `getLLMConfig`. `enabled` and `hasApiKey` mirror the
two conjuncts of the guard `!config.gemini.enabled || !config.gemini.apiKey`. -/
structure GeminiConfig where
  enabled : Bool
  hasApiKey : Bool
  maxRetries : Nat
  deriving Repr, DecidableEq

/-- Ollama section of `getLLMConfig`. -/
structure OllamaConfig where
  enabled : Bool
  maxRetries : Nat
  deriving Repr, DecidableEq

/-- The `fallback` section of `getLLMConfig` (only the field the
classification paths read). -/
structure FallbackConfig where
  defaultCategory : String
  deriving Repr, DecidableEq

/-- The service configuration: selected provider (`"auto"` or a specific
name), fallback order, and the per-provider sections. -/
structure LLMConfig where
  provider : String
  fallbackOrder : List String
  gemini : GeminiConfig
  ollama : OllamaConfig
  fallback : FallbackConfig
  deriving Repr, DecidableEq

/-- The service context: configuration plus the `KEYWORD_RULES` table. -/
structure ServiceCtx where
  config : LLMConfig
  rules : KeywordRules
  deriving Repr, DecidableEq

/-- The external world of one classification call: per-attempt outcomes of
each provider, the Ollama health-check outcome, and the clock. -/
structure LLMEnv where
  geminiAttempt : Nat → GeminiAttempt
  ollamaAttempt : Nat → OllamaAttempt
  ollamaHealthy : Bool
  now : Nat

/-- Observable invocation events of one classification call, for stating
ordering properties: `invoke p` marks entering provider `p`'s handler,
`attempt p k` marks its `k`-th network attempt. -/
inductive TraceEvent where
  | invoke (provider : String)
  | attempt (provider : String) (k : Nat)
  deriving Repr, DecidableEq

/-- The Gemini retry loop (`for attempt = 1..maxRetries`), recursing on
the number of attempts still allowed (`fuel`) with `k` the current attempt
number: the first usable response wins; every attempt made is traced. -/
def geminiLoop (env : LLMEnv) : Nat → Nat → Option LLMResponse × List TraceEvent
  | 0, _ => (none, [])
  | fuel + 1, k =>
    match env.geminiAttempt k with
    | .ok r => (some r, [.attempt "gemini" k])
    | .fail =>
      let next := geminiLoop env fuel (k + 1)
      (next.1, .attempt "gemini" k :: next.2)

/-- Terminal state of the Ollama retry loop. -/
inductive OllamaStop where
  | gotResponse (r : LLMResponse)
  | refused
  | exhausted
  deriving Repr, DecidableEq

/-- The Ollama retry loop, same shape as `geminiLoop`: first usable
response wins; `ECONNREFUSED` aborts immediately; otherwise retries until
the budget is spent. -/
def ollamaLoop (env : LLMEnv) : Nat → Nat → OllamaStop × List TraceEvent
  | 0, _ => (.exhausted, [])
  | fuel + 1, k =>
    match env.ollamaAttempt k with
    | .ok r => (.gotResponse r, [.attempt "ollama" k])
    | .connRefused => (.refused, [.attempt "ollama" k])
    | .fail =>
      let next := ollamaLoop env fuel (k + 1)
      (next.1, .attempt "ollama" k :: next.2)

/-- Model of `useGemini`: throw when disabled or without API key; otherwise run the
retry loop and parse the first usable response. -/
def useGemini (ctx : ServiceCtx) (env : LLMEnv) (ps : List Product) (query : String) :
    Except String (List Category) × List TraceEvent :=
  if ctx.config.gemini.enabled && ctx.config.gemini.hasApiKey then
    match geminiLoop env ctx.config.gemini.maxRetries 1 with
    | (some r, tr) =>
      (.ok (parseClassificationResult ctx.config.fallback.defaultCategory r ps),
        .invoke "gemini" :: tr)
    | (none, tr) => (.error "Gemini 請求失敗", .invoke "gemini" :: tr)
  else (.error "Gemini 未啟用或缺少 API Key", [.invoke "gemini"])

/-- Model of `useOllama`: throw when disabled; throw when the health check fails;
otherwise run the retry loop (with the `ECONNREFUSED` abort) and parse the
first usable response. -/
def useOllama (ctx : ServiceCtx) (env : LLMEnv) (ps : List Product) (query : String) :
    Except String (List Category) × List TraceEvent :=
  if ctx.config.ollama.enabled then
    if env.ollamaHealthy then
      match ollamaLoop env ctx.config.ollama.maxRetries 1 with
      | (.gotResponse r, tr) =>
        (.ok (parseClassificationResult ctx.config.fallback.defaultCategory r ps),
          .invoke "ollama" :: tr)
      | (.refused, tr) => (.error "Ollama 服務未運行，請先啟動 Ollama", .invoke "ollama" :: tr)
      | (.exhausted, tr) => (.error "Ollama 請求失敗", .invoke "ollama" :: tr)
    else (.error "Ollama 健康檢查失敗", [.invoke "ollama"])
  else (.error "Ollama 未啟用", [.invoke "ollama"])

/-- Model of `tryProvider`: dispatch on the provider name; the keyword provider
never fails; unknown names throw. -/
def tryProviderRun (ctx : ServiceCtx) (env : LLMEnv) (ps : List Product) (query : String)
    (p : String) : Except String (List Category) × List TraceEvent :=
  if p = "ollama" then useOllama ctx env ps query
  else if p = "gemini" then useGemini ctx env ps query
  else if p = "keyword" then
    (.ok (useKeywordMatching ctx.rules ctx.config.fallback.defaultCategory ps query),
      [.invoke "keyword"])
  else (.error ("不支援的提供商: " ++ p), [.invoke p])

/-- Per-provider health statistics (`performanceStats` entries). -/
structure ProviderStats where
  successCount : Nat
  totalRequests : Nat
  totalResponseTime : Nat
  lastSuccess : Option Nat
  lastFailure : Option Nat
  lastError : Option String
  deriving Repr, DecidableEq

/-- The service's mutable health state: the `performanceStats` map and the
`failureCount` map (consecutive-failure counters). -/
structure ServiceState where
  performanceStats : List (String × ProviderStats)
  failureCount : List (String × Nat)
  deriving Repr, DecidableEq

/-- Model of `recordSuccess(provider, responseTime)`: create-if-absent, bump
success/request counters and accumulated latency, reset the
consecutive-failure counter to `0`. -/
def recordSuccess (now : Nat) (p : String) (responseTime : Nat) (st : ServiceState) :
    ServiceState :=
  let base := (List.lookup p st.performanceStats).getD
    { successCount := 0, totalRequests := 0, totalResponseTime := 0
      lastSuccess := some now, lastFailure := none, lastError := none }
  let stats : ProviderStats :=
    { base with
      successCount := base.successCount + 1
      totalRequests := base.totalRequests + 1
      totalResponseTime := base.totalResponseTime + responseTime
      lastSuccess := some now }
  { performanceStats := mapSet st.performanceStats p stats
    failureCount := mapSet st.failureCount p 0 }

/-- Model of `recordFailure(provider, error)`: bump the consecutive-failure counter,
create-if-absent the stats entry, bump its request counter and record the
failure time and message. -/
def recordFailure (now : Nat) (p : String) (errMsg : String) (st : ServiceState) :
    ServiceState :=
  let failures := (List.lookup p st.failureCount).getD 0
  let base := (List.lookup p st.performanceStats).getD
    { successCount := 0, totalRequests := 0, totalResponseTime := 0
      lastSuccess := none, lastFailure := some now, lastError := none }
  let stats : ProviderStats :=
    { base with
      totalRequests := base.totalRequests + 1
      lastFailure := some now
      lastError := some errMsg }
  { performanceStats := mapSet st.performanceStats p stats
    failureCount := mapSet st.failureCount p (failures + 1) }

/-- Result shape of `categorizeSearchResults` (the timestamp field and the
exact response-time value are timing metadata and are not modelled). -/
structure CategorizeResult where
  success : Bool
  mode : String
  provider : Option String
  categories : List Category
  totalProducts : Nat
  searchQuery : String
  error : Option String
  deriving Repr, DecidableEq

/-- The provider list `categorizeSearchResults` iterates: the fallback
order in `auto` mode, otherwise the single configured provider. -/
def providersOf (cfg : LLMConfig) : List String :=
  if cfg.provider = "auto" then cfg.fallbackOrder else [cfg.provider]

/-- The `for (const provider of providers)` loop: on success record it and
stop; on failure record it and continue; when the list is spent, throw
`所有 LLM 提供商都無法使用`. -/
def runProviders (ctx : ServiceCtx) (env : LLMEnv) (ps : List Product) (query : String) :
    List String → ServiceState →
    Except String (String × List Category) × ServiceState × List TraceEvent
  | [], st => (.error "所有 LLM 提供商都無法使用", st, [])
  | p :: rest, st =>
    match tryProviderRun ctx env ps query p with
    | (.ok cats, tr) => (.ok (p, cats), recordSuccess env.now p 0 st, tr)
    | (.error e, tr) =>
      let next := runProviders ctx env ps query rest (recordFailure env.now p e st)
      (next.1, next.2.1, tr ++ next.2.2)

/-- Model of `SmartLLMService.categorizeSearchResults`: run the provider chain; a
success yields `success: true` with the winner's categories, total failure
is caught and yields the `success: false` result object (no exception
escapes). -/
def categorizeSearchResults (ctx : ServiceCtx) (env : LLMEnv) (st : ServiceState)
    (ps : List Product) (query : String) :
    CategorizeResult × ServiceState × List TraceEvent :=
  match runProviders ctx env ps query (providersOf ctx.config) st with
  | (.ok (p, cats), st', tr) =>
    ({ success := true, mode := p ++ "_classification", provider := some p
       categories := cats, totalProducts := ps.length, searchQuery := query
       error := none }, st', tr)
  | (.error e, st', tr) =>
    ({ success := false, mode := "failed", provider := none
       categories := [], totalProducts := ps.length, searchQuery := query
       error := some e }, st', tr)

/-- Model of `SmartLLMService.categorizeWithGemini`: guard, invoke Gemini only,
record health, and rethrow on failure. -/
def categorizeWithGemini (ctx : ServiceCtx) (env : LLMEnv) (st : ServiceState)
    (ps : List Product) (query : String) :
    Except String CategorizeResult × ServiceState × List TraceEvent :=
  if ctx.config.gemini.enabled && ctx.config.gemini.hasApiKey then
    match useGemini ctx env ps query with
    | (.ok cats, tr) =>
      (.ok { success := true, mode := "gemini_classification", provider := some "gemini"
             categories := cats, totalProducts := ps.length, searchQuery := query
             error := none }, recordSuccess env.now "gemini" 0 st, tr)
    | (.error e, tr) => (.error e, recordFailure env.now "gemini" e st, tr)
  else
    (.error "Gemini 未啟用或缺少 API Key",
      recordFailure env.now "gemini" "Gemini 未啟用或缺少 API Key" st, [])

/-- Model of `SmartLLMService.categorizeWithOllama`: guard, invoke Ollama only,
record health, and rethrow on failure. -/
def categorizeWithOllama (ctx : ServiceCtx) (env : LLMEnv) (st : ServiceState)
    (ps : List Product) (query : String) :
    Except String CategorizeResult × ServiceState × List TraceEvent :=
  if ctx.config.ollama.enabled then
    match useOllama ctx env ps query with
    | (.ok cats, tr) =>
      (.ok { success := true, mode := "ollama_classification", provider := some "ollama"
             categories := cats, totalProducts := ps.length, searchQuery := query
             error := none }, recordSuccess env.now "ollama" 0 st, tr)
    | (.error e, tr) => (.error e, recordFailure env.now "ollama" e st, tr)
  else
    (.error "Ollama 未啟用", recordFailure env.now "ollama" "Ollama 未啟用" st, [])

/-- Model of `CrawlerManager.tryLLMCategorization`: hard-coded Gemini first, then
Ollama; if both fail the Ollama error is rethrown out of the function.
The keyword provider is never consulted on this path. -/
def tryLLMCategorization (ctx : ServiceCtx) (env : LLMEnv) (st : ServiceState)
    (ps : List Product) (keyword : String) :
    Except String CategorizeResult × ServiceState × List TraceEvent :=
  match categorizeWithGemini ctx env st ps keyword with
  | (.ok r, st1, tr1) => (.ok r, st1, tr1)
  | (.error _, st1, tr1) =>
    match categorizeWithOllama ctx env st1 ps keyword with
    | (.ok r, st2, tr2) => (.ok r, st2, tr1 ++ tr2)
    | (.error e, st2, tr2) => (.error e, st2, tr1 ++ tr2)

/-! ## Crawl orchestrator (`CrawlerManager.searchProducts`) -/

/-- Per-platform fetch result shape returned by a crawler's
`searchProducts` (restricted to the consulted fields). -/
structure FetchResult where
  success : Bool
  products : List Product
  error : Option String
  deriving Repr, DecidableEq

/-- One settled promise of the platform fan-out: fulfilled with a fetch
result, or rejected with an optional reason message. -/
inductive SettledFetch where
  | fulfilled (r : FetchResult)
  | rejected (msg : Option String)
  deriving Repr, DecidableEq

/-- The crawl environment: what each platform's fetch settles to. -/
structure CrawlEnv where
  fetch : String → SettledFetch

/-- Options of `CrawlerManager.searchProducts`. -/
structure SearchOptions where
  platforms : List String
  enableCategorySummary : Bool
  sortBy : String
  deriving Repr, DecidableEq

/-- A failed-source record `{platform, error}`. -/
structure FailedPlatform where
  platform : String
  error : String
  deriving Repr, DecidableEq

/-- A successful platform entry `{platform, ...result.value}`. -/
structure PlatformResult where
  platform : String
  res : FetchResult
  deriving Repr, DecidableEq

/-- Model of `result.status === 'fulfilled' && result.value.success`. -/
def fetchSucceeded : SettledFetch → Bool
  | .fulfilled r => r.success
  | .rejected _ => false

/-- Model of `result.reason?.message || result.value?.error || '未知錯誤'`. -/
def failReason : SettledFetch → String
  | .rejected (some m) => m
  | .rejected none => "未知錯誤"
  | .fulfilled r => r.error.getD "未知錯誤"

/-- Model of `platform: product.platform || result.platform`. -/
def tagPlatform (platformName : String) (p : Product) : Product :=
  { p with platform := if p.platform = "" then platformName else p.platform }

/-- The `summary` block of a search result. -/
structure SearchSummary where
  originalQuery : String
  totalProducts : Nat
  successfulPlatforms : Nat
  failedPlatforms : Nat
  platforms : List String
  categoriesCount : Option Nat
  mode : String
  deriving Repr, DecidableEq

/-- The result object of `CrawlerManager.searchProducts`; `Option` fields
model keys absent from the corresponding JS object shape. -/
structure SearchResult where
  success : Bool
  query : String
  mode : Option String
  categories : Option (List Category)
  totalProducts : Option Nat
  products : Option (List Product)
  platformResults : Option (List PlatformResult)
  failedPlatforms : List FailedPlatform
  summary : Option SearchSummary
  error : Option String
  deriving Repr, DecidableEq

/-- The product-list sort: a stable comparison sort with the comparator
chosen by `getSortFunction` (ascending by price for `price_asc` and the
default, descending for `price_desc`). -/
def sortProducts (sortBy : String) (ps : List Product) : List Product :=
  if sortBy = "price_desc" then
    ps.mergeSort (fun a b => decide (b.price ≤ a.price))
  else
    ps.mergeSort (fun a b => decide (a.price ≤ b.price))

/-- Model of `Promise.allSettled(searchPromises)` paired with each platform
name: the fan-out settles every requested platform's fetch. -/
def settledFetches (cenv : CrawlEnv) (platforms : List String) :
    List (String × SettledFetch) :=
  platforms.map (fun p => (p, cenv.fetch p))

/-- Model of the `successfulResults` filter: fulfilled fetches whose value
reports `success`. -/
def successfulResultsOf (cenv : CrawlEnv) (platforms : List String) : List PlatformResult :=
  (settledFetches cenv platforms).filterMap (fun ps =>
    match ps.2 with
    | .fulfilled r => if r.success then some ⟨ps.1, r⟩ else none
    | .rejected _ => none)

/-- Model of the `failedPlatforms` filter: every platform whose fetch was
rejected or reported failure, with its extracted reason. -/
def failedPlatformsOf (cenv : CrawlEnv) (platforms : List String) : List FailedPlatform :=
  (settledFetches cenv platforms).filterMap (fun ps =>
    if fetchSucceeded ps.2 then none else some ⟨ps.1, failReason ps.2⟩)

/-- Model of `allProducts`: the successful platforms' product lists, each
product tagged with its platform, concatenated in platform order. -/
def mergedProducts (cenv : CrawlEnv) (platforms : List String) : List Product :=
  ((successfulResultsOf cenv platforms).map
    (fun pr => pr.res.products.map (tagPlatform pr.platform))).flatten

/-- Model of `CrawlerManager.searchProducts`: settle every platform fetch, split
successes from failures, merge and tag the products; return the empty
success shape when nothing was found, otherwise classify (category mode)
or sort (list mode). A classification throw is caught and becomes the
`success: false` shape with empty `products`/`failedPlatforms`. -/
def searchProducts (ctx : ServiceCtx) (env : LLMEnv) (st : ServiceState) (cenv : CrawlEnv)
    (keyword : String) (opts : SearchOptions) : SearchResult × ServiceState :=
  let successfulResults := successfulResultsOf cenv opts.platforms
  let failedPlatforms := failedPlatformsOf cenv opts.platforms
  let allProducts := mergedProducts cenv opts.platforms
  if allProducts.isEmpty then
    ({ success := true, query := keyword, mode := some "category_summary"
       categories := some [], totalProducts := some 0, products := none
       platformResults := some [], failedPlatforms := failedPlatforms
       summary := some
         { originalQuery := keyword, totalProducts := 0, successfulPlatforms := 0
           failedPlatforms := failedPlatforms.length, platforms := opts.platforms
           categoriesCount := some 0, mode := "category_summary" }
       error := none }, st)
  else if opts.enableCategorySummary then
    match tryLLMCategorization ctx env st allProducts keyword with
    | (.ok catResult, st', _) =>
      ({ success := true, query := keyword, mode := some "category_summary"
         categories := some catResult.categories, totalProducts := some allProducts.length
         products := none, platformResults := some successfulResults
         failedPlatforms := failedPlatforms
         summary := some
           { originalQuery := keyword, totalProducts := allProducts.length
             successfulPlatforms := successfulResults.length
             failedPlatforms := failedPlatforms.length, platforms := opts.platforms
             categoriesCount := some catResult.categories.length, mode := "category_summary" }
         error := none }, st')
    | (.error e, st', _) =>
      ({ success := false, query := keyword, mode := none
         categories := some [], totalProducts := none, products := some []
         platformResults := some [], failedPlatforms := []
         summary := none, error := some e }, st')
  else
    ({ success := true, query := keyword, mode := some "product_list"
       categories := none, totalProducts := none
       products := some (sortProducts opts.sortBy allProducts)
       platformResults := some successfulResults, failedPlatforms := failedPlatforms
       summary := some
         { originalQuery := keyword, totalProducts := allProducts.length
           successfulPlatforms := successfulResults.length
           failedPlatforms := failedPlatforms.length, platforms := opts.platforms
           categoriesCount := none, mode := "product_list" }
       error := none }, st)

/-! ## Association-list and eviction lemmas -/

theorem lookup_mapSet_self {α : Type} (l : List (String × α)) (k : String) (v : α) :
    List.lookup k (mapSet l k v) = some v := by
  induction l with
  | nil => simp [mapSet, List.lookup]
  | cons kv rest ih =>
    obtain ⟨k', v'⟩ := kv
    by_cases h : k' = k
    · simp [mapSet, h, List.lookup]
    · have hb : (k == k') = false := beq_eq_false_iff_ne.mpr (Ne.symm h)
      simp [mapSet, h, List.lookup, hb, ih]

theorem lookup_mapSet_ne {α : Type} (l : List (String × α)) (k k' : String) (v : α)
    (h : k' ≠ k) : List.lookup k' (mapSet l k v) = List.lookup k' l := by
  induction l with
  | nil =>
    have hb : (k' == k) = false := beq_eq_false_iff_ne.mpr h
    simp [mapSet, List.lookup, hb]
  | cons kv rest ih =>
    obtain ⟨k₀, v₀⟩ := kv
    by_cases h₀ : k₀ = k
    · subst h₀
      have hb : (k' == k₀) = false := beq_eq_false_iff_ne.mpr h
      simp [mapSet, List.lookup, hb]
    · by_cases h₁ : k' = k₀
      · subst h₁
        simp [mapSet, h₀, List.lookup]
      · have hb : (k' == k₀) = false := beq_eq_false_iff_ne.mpr h₁
        simp [mapSet, h₀, List.lookup, hb, ih]

theorem lookup_mapDelete_ne {α : Type} (l : List (String × α)) (k k' : String)
    (h : k' ≠ k) : List.lookup k' (mapDelete l k) = List.lookup k' l := by
  induction l with
  | nil => simp [mapDelete]
  | cons kv rest ih =>
    obtain ⟨k₀, v₀⟩ := kv
    by_cases h₀ : k₀ = k
    · subst h₀
      have hb : (k' == k₀) = false := beq_eq_false_iff_ne.mpr h
      simp only [mapDelete, List.filter_cons, bne_self_eq_false, Bool.false_eq_true,
        if_false, List.lookup, hb]
      exact ih
    · have hk : (k₀ != k) = true := bne_iff_ne.mpr h₀
      by_cases h₁ : k' = k₀
      · subst h₁
        simp [mapDelete, List.filter_cons, hk, List.lookup]
      · have hb : (k' == k₀) = false := beq_eq_false_iff_ne.mpr h₁
        simp only [mapDelete, List.filter_cons, hk, if_true, List.lookup, hb] at ih ⊢
        exact ih

theorem keys_mapSet {α : Type} (l : List (String × α)) (k : String) (v : α) :
    (mapSet l k v).map Prod.fst =
      if k ∈ l.map Prod.fst then l.map Prod.fst else l.map Prod.fst ++ [k] := by
  induction l with
  | nil => simp [mapSet]
  | cons kv rest ih =>
    obtain ⟨k₀, v₀⟩ := kv
    by_cases h₀ : k₀ = k
    · simp [mapSet, h₀]
    · simp only [mapSet, h₀, if_false, List.map_cons, ih]
      by_cases hm : k ∈ rest.map Prod.fst
      · simp [hm, Ne.symm h₀]
      · simp [hm, Ne.symm h₀]

theorem mapSet_not_mem_eq_append {α : Type} (l : List (String × α)) (k : String) (v : α)
    (h : k ∉ l.map Prod.fst) : mapSet l k v = l ++ [(k, v)] := by
  induction l with
  | nil => simp [mapSet]
  | cons kv rest ih =>
    obtain ⟨k₀, v₀⟩ := kv
    simp only [List.map_cons, List.mem_cons] at h
    push_neg at h
    simp [mapSet, Ne.symm h.1, ih h.2]

theorem length_mapSet_mem {α : Type} (l : List (String × α)) (k : String) (v : α)
    (h : k ∈ l.map Prod.fst) : (mapSet l k v).length = l.length := by
  induction l with
  | nil => simp at h
  | cons kv rest ih =>
    obtain ⟨k₀, v₀⟩ := kv
    by_cases h₀ : k₀ = k
    · simp [mapSet, h₀]
    · simp only [List.map_cons, List.mem_cons] at h
      rcases h with h | h

      · exact absurd h.symm h₀
      · simp [mapSet, h₀, ih h]

theorem mapDelete_length_lt {α : Type} (l : List (String × α)) (k : String) (v : α)
    (h : (k, v) ∈ l) : (mapDelete l k).length < l.length := by
  induction l with
  | nil => simp at h
  | cons kv rest ih =>
    by_cases h₀ : kv.1 = k
    · have hb : (kv.1 != k) = false := by simp [h₀]
      simp only [mapDelete, List.filter_cons, hb, Bool.false_eq_true, if_false]
      exact Nat.lt_succ_of_le (List.length_filter_le _ _)
    · have hb : (kv.1 != k) = true := bne_iff_ne.mpr h₀
      have hm : (k, v) ∈ rest := by
        rcases List.mem_cons.mp h with h₁ | h₁
        · exact absurd (congrArg Prod.fst h₁.symm) h₀
        · exact h₁
      simp only [mapDelete, List.filter_cons, hb, if_true, List.length_cons]
      exact Nat.succ_lt_succ (ih hm)

theorem lookup_append_left {α : Type} (l₁ l₂ : List (String × α)) (k : String) (v : α)
    (h : List.lookup k l₁ = some v) : List.lookup k (l₁ ++ l₂) = some v := by
  induction l₁ with
  | nil => simp [List.lookup] at h
  | cons kv rest ih =>
    obtain ⟨k₀, v₀⟩ := kv
    by_cases h₀ : k = k₀
    · have hb : (k == k₀) = true := beq_iff_eq.mpr h₀
      simp only [List.lookup, hb] at h ⊢
      simpa using h
    · have hb : (k == k₀) = false := beq_eq_false_iff_ne.mpr h₀
      simp only [List.lookup, hb, List.cons_append] at h ⊢
      exact ih h

theorem mem_of_lookup_eq_some {α : Type} {l : List (String × α)} {k : String} {v : α}
    (h : List.lookup k l = some v) : (k, v) ∈ l := by
  induction l with
  | nil => simp [List.lookup] at h
  | cons kv rest ih =>
    obtain ⟨k₀, v₀⟩ := kv
    by_cases h₀ : k = k₀
    · have hb : (k == k₀) = true := beq_iff_eq.mpr h₀
      simp only [List.lookup, hb] at h
      have hv : v₀ = v := by simpa using h
      simp [h₀, hv]
    · have hb : (k == k₀) = false := beq_eq_false_iff_ne.mpr h₀
      simp only [List.lookup, hb] at h
      exact List.mem_cons_of_mem _ (ih h)

theorem entry_unique_of_nodup {α : Type} {l : List (String × α)} {k : String} {v v' : α}
    (hnd : (l.map Prod.fst).Nodup) (h : (k, v) ∈ l) (h' : (k, v') ∈ l) : v = v' := by
  induction l with
  | nil => simp at h
  | cons kv rest ih =>
    simp only [List.map_cons, List.nodup_cons] at hnd
    rcases List.mem_cons.mp h with h₁ | h₁ <;> rcases List.mem_cons.mp h' with h₂ | h₂
    · exact congrArg Prod.snd (h₁.trans h₂.symm)
    · exfalso
      have hk : kv.1 = k := by rw [← h₁]
      exact hnd.1 (by rw [hk]; exact List.mem_map_of_mem Prod.fst h₂)
    · exfalso
      have hk : kv.1 = k := by rw [← h₂]
      exact hnd.1 (by rw [hk]; exact List.mem_map_of_mem Prod.fst h₁)
    · exact ih hnd.2 h₁ h₂

/-- The step function of the `evictOldest` scan. -/
def scanStep (acc : Option String × Nat) (kv : String × CacheEntry) : Option String × Nat :=
  if kv.2.createdAt < acc.2 then (some kv.1, kv.2.createdAt) else acc

theorem evictScan_eq_foldl (now : Nat) (entries : List (String × CacheEntry)) :
    evictScan now entries = (entries.foldl scanStep (none, now)).1 := by
  unfold evictScan scanStep
  rfl

theorem scanStep_snd_le (acc : Option String × Nat) (kv : String × CacheEntry) :
    (scanStep acc kv).2 ≤ acc.2 := by
  by_cases h : kv.2.createdAt < acc.2
  · simp only [scanStep, if_pos h]
    omega
  · simp only [scanStep, if_neg h]
    exact Nat.le_refl _

theorem scanStep_snd_le_entry (acc : Option String × Nat) (kv : String × CacheEntry) :
    (scanStep acc kv).2 ≤ kv.2.createdAt ∨ (scanStep acc kv).2 = acc.2 := by
  by_cases h : kv.2.createdAt < acc.2
  · left
    simp only [scanStep, if_pos h]
    exact Nat.le_refl _
  · right
    simp only [scanStep, if_neg h]

theorem scanFold_snd_le (l : List (String × CacheEntry)) :
    ∀ acc : Option String × Nat, (l.foldl scanStep acc).2 ≤ acc.2 := by
  induction l with
  | nil => intro acc; simp
  | cons kv rest ih =>
    intro acc
    simp only [List.foldl_cons]
    exact Nat.le_trans (ih (scanStep acc kv)) (scanStep_snd_le acc kv)

theorem scanFold_snd_le_mem (l : List (String × CacheEntry)) :
    ∀ acc : Option String × Nat, ∀ kv ∈ l, (l.foldl scanStep acc).2 ≤ kv.2.createdAt := by
  induction l with
  | nil => intro acc kv h; simp at h
  | cons kv₀ rest ih =>
    intro acc kv h
    rcases List.mem_cons.mp h with h | h
    · subst h
      simp only [List.foldl_cons]
      by_cases hlt : kv.2.createdAt < acc.2
      · have : (scanStep acc kv).2 = kv.2.createdAt := by simp [scanStep, if_pos hlt]
        exact this ▸ scanFold_snd_le rest (scanStep acc kv)
      · have : (scanStep acc kv).2 = acc.2 := by simp [scanStep, if_neg hlt]
        have h₂ : (rest.foldl scanStep (scanStep acc kv)).2 ≤ acc.2 :=
          this ▸ scanFold_snd_le rest (scanStep acc kv)
        omega
    · simp only [List.foldl_cons]
      exact ih (scanStep acc kv₀) kv h

theorem scanFold_none (l : List (String × CacheEntry)) :
    ∀ t : Nat, (l.foldl scanStep (none, t)).1 = none → ∀ kv ∈ l, t ≤ kv.2.createdAt := by
  induction l with
  | nil => intro t _ kv h; simp at h
  | cons kv₀ rest ih =>
    intro t hnone kv h
    simp only [List.foldl_cons] at hnone
    by_cases hlt : kv₀.2.createdAt < t
    · exfalso
      have hstep : scanStep (none, t) kv₀ = (some kv₀.1, kv₀.2.createdAt) := by
        simp [scanStep, hlt]
      rw [hstep] at hnone
      -- a `some` accumulator can never revert to `none`
      have : ∀ (l' : List (String × CacheEntry)) (k : String) (t' : Nat),
          (l'.foldl scanStep (some k, t')).1 ≠ none := by
        intro l'
        induction l' with
        | nil => intro k t'; simp
        | cons kv₁ rest₁ ih₁ =>
          intro k t'
          simp only [List.foldl_cons]
          by_cases h₁ : kv₁.2.createdAt < t'
          · simpa [scanStep, h₁] using ih₁ kv₁.1 kv₁.2.createdAt
          · simpa [scanStep, h₁] using ih₁ k t'
      exact this rest kv₀.1 kv₀.2.createdAt hnone
    · have hstep : scanStep (none, t) kv₀ = (none, t) := by simp [scanStep, hlt]
      rw [hstep] at hnone
      rcases List.mem_cons.mp h with h | h
      · subst h; omega
      · exact ih t hnone kv h

theorem scanFold_some_mem (l : List (String × CacheEntry)) :
    ∀ (acc : Option String × Nat) (k : String) (t' : Nat),
      l.foldl scanStep acc = (some k, t') →
      acc = (some k, t') ∨ ∃ kv ∈ l, kv.1 = k ∧ kv.2.createdAt = t' := by
  induction l with
  | nil => intro acc k t' h; simp at h; simp [h]
  | cons kv₀ rest ih =>
    intro acc k t' h
    simp only [List.foldl_cons] at h
    rcases ih (scanStep acc kv₀) k t' h with h₁ | h₁
    · by_cases hlt : kv₀.2.createdAt < acc.2
      · right
        refine ⟨kv₀, List.mem_cons_self _ _, ?_, ?_⟩
        · simpa [scanStep, hlt] using congrArg Prod.fst h₁
        · simpa [scanStep, hlt] using congrArg Prod.snd h₁
      · left
        simpa [scanStep, hlt] using h₁
    · right
      obtain ⟨kv, hmem, hk, ht⟩ := h₁
      exact ⟨kv, List.mem_cons_of_mem _ hmem, hk, ht⟩

theorem scanFold_some_lt (l : List (String × CacheEntry)) :
    ∀ (t : Nat) (k : String) (t' : Nat),
      l.foldl scanStep (none, t) = (some k, t') → t' < t := by
  induction l with
  | nil => intro t k t' h; simp at h
  | cons kv₀ rest ih =>
    intro t k t' h
    simp only [List.foldl_cons] at h
    by_cases hlt : kv₀.2.createdAt < t
    · have hstep : scanStep (none, t) kv₀ = (some kv₀.1, kv₀.2.createdAt) := by
        simp [scanStep, hlt]
      rw [hstep] at h
      have : t' ≤ kv₀.2.createdAt := by
        have := scanFold_snd_le rest (some kv₀.1, kv₀.2.createdAt)
        rw [h] at this
        exact this
      omega
    · have hstep : scanStep (none, t) kv₀ = (none, t) := by simp [scanStep, hlt]
      rw [hstep] at h
      exact ih t k t' h

theorem nodup_keys_mapSet {α : Type} (l : List (String × α)) (k : String) (v : α)
    (h : (l.map Prod.fst).Nodup) : ((mapSet l k v).map Prod.fst).Nodup := by
  rw [keys_mapSet]
  by_cases hm : k ∈ l.map Prod.fst
  · simpa [hm] using h
  · simp only [hm, if_false]
    rw [List.nodup_append_comm]
    exact List.nodup_cons.mpr ⟨hm, h⟩

theorem prod_eta_fst {α β : Type} (p : α × β) (a : α) (h : p.1 = a) : p = (a, p.2) := by
  rw [← h]

/-- After `cacheSet`, the key just written still maps to the entry just
written: the new entry (creation time `now`) can never be the eviction
victim, because the eviction scan only considers entries created strictly
before `now`. -/
theorem cacheSet_lookup_self (cfg : CacheConfig) (now : Nat) (st : CacheState)
    (name c : String) (qc : Option QueryContext) (hnd : CacheKeysDistinct st) :
    List.lookup (generateCacheKey name qc) (cacheSet cfg now st name c qc).entries =
      some { productName := name, category := c
             queryContext := qc.map (fun x => x.originalQuery)
             createdAt := now, expireAt := now + cfg.ttl } := by
  classical
  set key := generateCacheKey name qc with hkey
  set entry : CacheEntry :=
    { productName := name, category := c
      queryContext := qc.map (fun x => x.originalQuery)
      createdAt := now, expireAt := now + cfg.ttl } with hentry
  have hself : List.lookup key (mapSet st.entries key entry) = some entry :=
    lookup_mapSet_self st.entries key entry
  by_cases hcap : cfg.maxSize < (mapSet st.entries key entry).length
  · have hres : (cacheSet cfg now st name c qc).entries =
        evictOldest now (mapSet st.entries key entry) := by
      simp only [cacheSet, hcap, if_true]
    rw [hres]
    unfold evictOldest
    cases hscan : evictScan now (mapSet st.entries key entry) with
    | none => exact hself
    | some k₀ =>
      have hk₀ : k₀ ≠ key := by
        intro hkk
        rw [evictScan_eq_foldl] at hscan
        have hfold : (mapSet st.entries key entry).foldl scanStep (none, now) =
            (some k₀, ((mapSet st.entries key entry).foldl scanStep (none, now)).2) :=
          prod_eta_fst _ _ hscan
        rcases scanFold_some_mem _ _ _ _ hfold with hacc | ⟨kv, hmem, hfst, hsnd⟩
        · exact Option.noConfusion (congrArg Prod.fst hacc)
        · have hlt := scanFold_some_lt _ _ _ _ hfold
          rw [← hsnd] at hlt
          have hkv : kv = (key, kv.2) := prod_eta_fst _ _ (hfst.trans hkk)
          have hmem' : (key, kv.2) ∈ mapSet st.entries key entry := hkv ▸ hmem
          have hmem'' : (key, entry) ∈ mapSet st.entries key entry :=
            mem_of_lookup_eq_some hself
          have hnd' : ((mapSet st.entries key entry).map Prod.fst).Nodup :=
            nodup_keys_mapSet st.entries key entry hnd
          have : kv.2 = entry := entry_unique_of_nodup hnd' hmem' hmem''
          rw [this] at hlt
          exact absurd hlt (by simp [hentry])
      rw [lookup_mapDelete_ne _ _ _ (Ne.symm hk₀)]
      exact hself
  · have hres : (cacheSet cfg now st name c qc).entries = mapSet st.entries key entry := by
      simp only [cacheSet, hcap, if_false]
    rw [hres]
    exact hself

/-- **C6** (confirmed). Cache correctness: `set(p, c)` followed by an
immediate `get(p)` (same timestamp, same product name and query context)
returns `c`; once the TTL has strictly elapsed since the `set`, `get(p)`
misses even with no cleanup sweep in between, because expiry is checked at
read time; and any hit returns the stored, unexpired entry's label —
a hit never returns an expired entry. -/
theorem cache_set_get_ttl_correct :
    (∀ (cfg : CacheConfig) (st : CacheState) (t : Nat) (name c : String)
        (qc : Option QueryContext), CacheKeysDistinct st →
      (cacheGet t (cacheSet cfg t st name c qc) name qc).1 = some c) ∧
    (∀ (cfg : CacheConfig) (st : CacheState) (t t' : Nat) (name c : String)
        (qc : Option QueryContext), CacheKeysDistinct st → t + cfg.ttl < t' →
      (cacheGet t' (cacheSet cfg t st name c qc) name qc).1 = none) ∧
    (∀ (now : Nat) (st : CacheState) (name c : String) (qc : Option QueryContext),
      (cacheGet now st name qc).1 = some c →
      ∃ e, List.lookup (generateCacheKey name qc) st.entries = some e ∧
        e.category = c ∧ now ≤ e.expireAt) := by
  refine ⟨?_, ?_, ?_⟩
  · intro cfg st t name c qc hnd
    have hl := cacheSet_lookup_self cfg t st name c qc hnd
    have hno : ¬ (t + cfg.ttl < t) := by omega
    simp [cacheGet, hl, hno]
  · intro cfg st t t' name c qc hnd hlt
    have hl := cacheSet_lookup_self cfg t st name c qc hnd
    simp [cacheGet, hl, hlt]
  · intro now st name c qc h
    unfold cacheGet at h
    cases hl : List.lookup (generateCacheKey name qc) st.entries with
    | none => simp [hl] at h
    | some e =>
      simp only [hl] at h
      by_cases he : e.expireAt < now
      · simp [he] at h
      · simp only [he, if_false] at h
        have hc : e.category = c := by simpa using h
        exact ⟨e, rfl, hc, by omega⟩

/-- **C10** (confirmed). Expiry is exclusive at the boundary: a `get` at
exactly the stored expiry instant (creation time plus TTL) still hits,
because the read-time check uses strict `Date.now() > expireAt`; in
general, for a present entry, the hit happens exactly when
`now ≤ expireAt` — an entry misses only strictly after its TTL elapsed. -/
theorem cache_expiry_boundary_exclusive :
    (∀ (cfg : CacheConfig) (st : CacheState) (t : Nat) (name c : String)
        (qc : Option QueryContext), CacheKeysDistinct st →
      (cacheGet (t + cfg.ttl) (cacheSet cfg t st name c qc) name qc).1 = some c) ∧
    (∀ (now : Nat) (st : CacheState) (name : String) (qc : Option QueryContext)
        (e : CacheEntry), List.lookup (generateCacheKey name qc) st.entries = some e →
      ((cacheGet now st name qc).1 = some e.category ↔ now ≤ e.expireAt)) := by
  constructor
  · intro cfg st t name c qc hnd
    have hl := cacheSet_lookup_self cfg t st name c qc hnd
    have hno : ¬ (t + cfg.ttl < t + cfg.ttl) := by omega
    simp [cacheGet, hl, hno]
  · intro now st name qc e hl
    simp only [cacheGet, hl]
    by_cases he : e.expireAt < now
    · have hn : ¬ (now ≤ e.expireAt) := by omega
      simp [he, hn]
    · have hy : now ≤ e.expireAt := by omega
      simp [he, hy]

/-- **C9** counterexample. Two `set`s in the same millisecond: with
`maxSize = 1` and both entries created at time `5`, the eviction scan
(seeded with `oldestTime = Date.now() = 5` and a strict comparison) finds
no victim, so after the second `set` the cache holds 2 > 1 entries —
the claimed capacity bound fails. -/
theorem cache_capacity_counterexample :
    (cacheSet ⟨10, 1⟩ 5 (cacheSet ⟨10, 1⟩ 5 ⟨[], 0, 0, 0⟩ "a" "c1" none)
        "b" "c2" none).entries.length = 2 ∧
    (1 : Nat) <
      (cacheSet ⟨10, 1⟩ 5 (cacheSet ⟨10, 1⟩ 5 ⟨[], 0, 0, 0⟩ "a" "c1" none)
        "b" "c2" none).entries.length := by
  constructor
  · rfl
  · decide

/-- **C9** (corrected). Capacity bound under distinct timestamps: if every
entry already stored was created strictly before the current `set`'s
timestamp (and the configured capacity is at least 1), then after the
`set` the cache again holds at most `maxSize` entries, and any key the
`set` removed held an entry with the oldest creation time of the whole
map. Same-instant inserts escape eviction (see the counterexample), which
is the only weakening versus the claim. -/
theorem cache_capacity_bound_amended :
    ∀ (cfg : CacheConfig) (st : CacheState) (now : Nat) (name c : String)
      (qc : Option QueryContext),
      1 ≤ cfg.maxSize →
      st.entries.length ≤ cfg.maxSize →
      (∀ kv ∈ st.entries, kv.2.createdAt < now) →
      CacheKeysDistinct st →
      ((cacheSet cfg now st name c qc).entries.length ≤ cfg.maxSize ∧
        ∀ k e, List.lookup k st.entries = some e →
          List.lookup k (cacheSet cfg now st name c qc).entries = none →
          ∀ kv ∈ st.entries, e.createdAt ≤ kv.2.createdAt) := by
  intro cfg st now name c qc hmax hlen hcre hnd
  classical
  set key := generateCacheKey name qc with hkeydef
  set entry : CacheEntry :=
    { productName := name, category := c
      queryContext := qc.map (fun x => x.originalQuery)
      createdAt := now, expireAt := now + cfg.ttl } with hentrydef
  by_cases hmem : key ∈ st.entries.map Prod.fst
  · -- replacement in place: the size cannot grow, no eviction fires
    have hlen1 : (mapSet st.entries key entry).length = st.entries.length :=
      length_mapSet_mem st.entries key entry hmem
    have hcap : ¬ cfg.maxSize < (mapSet st.entries key entry).length := by omega
    have hres : (cacheSet cfg now st name c qc).entries = mapSet st.entries key entry := by
      simp only [cacheSet, hcap, if_false]
    constructor
    · rw [hres]; omega
    · intro k e hk hk' kv hkv
      exfalso
      rw [hres] at hk'
      by_cases hkk : k = key
      · subst hkk
        rw [lookup_mapSet_self] at hk'
        exact Option.noConfusion hk'
      · rw [lookup_mapSet_ne _ _ _ _ hkk, hk] at hk'
        exact Option.noConfusion hk'
  · -- genuine insert at the end
    have happ : mapSet st.entries key entry = st.entries ++ [(key, entry)] :=
      mapSet_not_mem_eq_append st.entries key entry hmem
    have hlen1 : (mapSet st.entries key entry).length = st.entries.length + 1 := by
      rw [happ]; simp
    by_cases hcap : cfg.maxSize < (mapSet st.entries key entry).length
    · -- capacity exceeded: the old map was full and non-empty, so a strictly
      -- older entry exists and the scan evicts the globally oldest one
      have hn : st.entries.length = cfg.maxSize := by omega
      have hne : st.entries ≠ [] := by
        intro hnil
        rw [hnil] at hn
        simp at hn
        omega
      obtain ⟨kv0, hkv0⟩ := List.exists_mem_of_ne_nil st.entries hne
      have hkv0' : kv0 ∈ mapSet st.entries key entry := by
        rw [happ]; exact List.mem_append_left _ hkv0
      have hscan : evictScan now (mapSet st.entries key entry) ≠ none := by
        intro hnone
        rw [evictScan_eq_foldl] at hnone
        have := scanFold_none (mapSet st.entries key entry) now hnone kv0 hkv0'
        exact absurd (hcre kv0 hkv0) (by omega)
      cases hscan' : evictScan now (mapSet st.entries key entry) with
      | none => exact absurd hscan' hscan
      | some k₀ =>
        have hres : (cacheSet cfg now st name c qc).entries =
            mapDelete (mapSet st.entries key entry) k₀ := by
          simp only [cacheSet, hcap, if_true, evictOldest, hscan']
        rw [evictScan_eq_foldl] at hscan'
        have hfold : (mapSet st.entries key entry).foldl scanStep (none, now) =
            (some k₀, ((mapSet st.entries key entry).foldl scanStep (none, now)).2) :=
          prod_eta_fst _ _ hscan'
        rcases scanFold_some_mem _ _ _ _ hfold with hacc | ⟨kv₁, hmem₁, hfst₁, hsnd₁⟩
        · exact absurd (congrArg Prod.fst hacc) (by simp)
        · have hlt₁ := scanFold_some_lt _ _ _ _ hfold
          rw [← hsnd₁] at hlt₁
          -- the victim is not the entry just inserted
          have hk₀ : k₀ ≠ key := by
            intro hkk
            rw [happ] at hmem₁
            rcases List.mem_append.mp hmem₁ with hin | hin
            · apply hmem
              rw [← hkk, ← hfst₁]
              exact List.mem_map_of_mem Prod.fst hin
            · have heq : kv₁ = (key, entry) := by simpa using hin
              rw [heq] at hlt₁
              simp [hentrydef] at hlt₁
          -- hence the victim comes from the old entries
          have hin₁ : kv₁ ∈ st.entries := by
            rw [happ] at hmem₁
            rcases List.mem_append.mp hmem₁ with hin | hin
            · exact hin
            · exfalso
              have heq : kv₁ = (key, entry) := by simpa using hin
              exact hk₀ (by rw [← hfst₁, heq])
          have hmem₁' : (k₀, kv₁.2) ∈ mapSet st.entries key entry := by
            have : kv₁ = (k₀, kv₁.2) := Prod.ext hfst₁ rfl
            exact this ▸ hmem₁
          constructor
          · rw [hres]
            have := mapDelete_length_lt (mapSet st.entries key entry) k₀ kv₁.2 hmem₁'
            omega
          · intro k e hk hk' kv hkv
            rw [hres] at hk'
            by_cases hkk : k = k₀
            · subst hkk
              have he₁ : (k, e) ∈ st.entries := mem_of_lookup_eq_some hk
              have he₂ : (k, kv₁.2) ∈ st.entries := by
                have : kv₁ = (k, kv₁.2) := Prod.ext hfst₁ rfl
                exact this ▸ hin₁
              have heq : e = kv₁.2 := entry_unique_of_nodup hnd he₁ he₂
              have hkvmem : kv ∈ mapSet st.entries key entry := by
                rw [happ]
                exact List.mem_append_left _ hkv
              have hle := scanFold_snd_le_mem (mapSet st.entries key entry)
                (none, now) kv hkvmem
              rw [heq, hsnd₁]
              exact hle
            · exfalso
              rw [lookup_mapDelete_ne _ k₀ k hkk] at hk'
              rw [happ] at hk'
              rw [lookup_append_left st.entries _ k e hk] at hk'
              exact Option.noConfusion hk'
    · have hres : (cacheSet cfg now st name c qc).entries = mapSet st.entries key entry := by
        simp only [cacheSet, hcap, if_false]
      constructor
      · rw [hres]; omega
      · intro k e hk hk' kv hkv
        exfalso
        rw [hres] at hk'
        by_cases hkk : k = key
        · subst hkk
          rw [lookup_mapSet_self] at hk'
          exact Option.noConfusion hk'
        · rw [lookup_mapSet_ne _ _ _ _ hkk, hk] at hk'
          exact Option.noConfusion hk'

theorem cache_set_get_ttl_correct_witness :
    (cacheGet 5 (cacheSet ⟨10, 100⟩ 5 ⟨[], 0, 0, 0⟩ "a" "cat" none) "a" none).1 = some "cat" ∧
    (cacheGet 16 (cacheSet ⟨10, 100⟩ 5 ⟨[], 0, 0, 0⟩ "a" "cat" none) "a" none).1 = none ∧
    (∃ e, List.lookup (generateCacheKey "a" none)
        (cacheSet ⟨10, 100⟩ 5 ⟨[], 0, 0, 0⟩ "a" "cat" none).entries = some e ∧
      e.category = "cat" ∧ 5 ≤ e.expireAt) :=
  ⟨cache_set_get_ttl_correct.1 ⟨10, 100⟩ ⟨[], 0, 0, 0⟩ 5 "a" "cat" none
      (by simp [CacheKeysDistinct]),
   cache_set_get_ttl_correct.2.1 ⟨10, 100⟩ ⟨[], 0, 0, 0⟩ 5 16 "a" "cat" none
      (by simp [CacheKeysDistinct]) (by norm_num),
   cache_set_get_ttl_correct.2.2 5 (cacheSet ⟨10, 100⟩ 5 ⟨[], 0, 0, 0⟩ "a" "cat" none)
      "a" "cat" none
      (cache_set_get_ttl_correct.1 ⟨10, 100⟩ ⟨[], 0, 0, 0⟩ 5 "a" "cat" none
        (by simp [CacheKeysDistinct]))⟩

theorem cache_expiry_boundary_exclusive_witness :
    (cacheGet (5 + 10) (cacheSet ⟨10, 100⟩ 5 ⟨[], 0, 0, 0⟩ "b" "dog" none) "b" none).1 =
      some "dog" :=
  cache_expiry_boundary_exclusive.1 ⟨10, 100⟩ ⟨[], 0, 0, 0⟩ 5 "b" "dog" none
    (by simp [CacheKeysDistinct])

theorem cache_capacity_bound_amended_witness :
    (cacheSet ⟨10, 1⟩ 9 ⟨[("x_default", ⟨"x", "c0", none, 3, 13⟩)], 0, 0, 0⟩
      "y" "c1" none).entries.length ≤ 1 :=
  (cache_capacity_bound_amended ⟨10, 1⟩ ⟨[("x_default", ⟨"x", "c0", none, 3, 13⟩)], 0, 0, 0⟩
    9 "y" "c1" none (by norm_num) (by norm_num)
    (by intro kv hkv; simp at hkv; rw [hkv]; norm_num)
    (by simp [CacheKeysDistinct])).1

/-! ## Repair idempotence (C8) -/

/-- A strict parser used by the witness of the repair-idempotence theorem:
it accepts exactly the two-character text consisting of an opening and a
closing curly brace. -/
def demoParse : String → Option Nat :=
  fun s => if s = "\x7b\x7d" then some 1 else none

/-- **C8** (confirmed). Repair idempotence: `repairJSON` first attempts the
strict parse and returns that parse unchanged whenever it succeeds — no
repair transformation is applied to a string that already parses under
strict JSON parsing. -/
theorem repairJSON_strict_parse_identity {α : Type} (parse : String → Option α)
    (s : String) (v : α) (h : parse s = some v) : repairJSON parse s = some v := by
  unfold repairJSON
  rw [h]

theorem repairJSON_strict_parse_identity_witness :
    demoParse "\x7b\x7d" = some 1 ∧ repairJSON demoParse "\x7b\x7d" = some 1 :=
  ⟨rfl, repairJSON_strict_parse_identity demoParse "\x7b\x7d" 1 rfl⟩

/-! ## Partition machinery -/

/-- All member products of a category list, concatenated in order. -/
def categoryProductsJoin (cats : List Category) : List Product :=
  (cats.map (fun c => c.products)).flatten

/-- "Every input product appears in exactly one output category, none lost
and none duplicated": the concatenation of all member lists has exactly
the batch's length and, up to the source's field-defaulting
(`normalizeProduct`), is a permutation of the batch. -/
def Partitions (cats : List Category) (ps : List Product) : Prop :=
  (categoryProductsJoin cats).length = ps.length ∧
  ((categoryProductsJoin cats).map normalizeProduct).Perm (ps.map normalizeProduct)

theorem normalizeProduct_idem (p : Product) :
    normalizeProduct (normalizeProduct p) = normalizeProduct p := by
  have hA : ("未知商品" : String) ≠ "" := by decide
  have hB : ("unknown" : String) ≠ "" := by decide
  unfold normalizeProduct
  by_cases h1 : p.name = "" <;> by_cases h2 : p.platform = "" <;> simp [h1, h2, hA, hB]

theorem drop_take_append_drop {α : Type} (l : List α) (a b : Nat) (hab : a ≤ b) :
    (l.drop a).take (b - a) ++ l.drop b = l.drop a := by
  have h1 : (l.drop a).drop (b - a) = l.drop b := by
    rw [List.drop_drop]
    congr 1
    omega
  rw [← h1, List.take_append_drop]

/-- The even-distribution slices of `fallbackParseJSON` concatenate back to
the whole remaining batch. -/
theorem sliceJoin (ps : List Product) (k : Nat) (hk : k ≠ 0) :
    ∀ (len j : Nat), j + len = k →
      ((List.range' j len).map (fun i =>
        (ps.drop (ps.length * i / k)).take
          (ps.length * (i + 1) / k - ps.length * i / k))).flatten
      = ps.drop (ps.length * j / k) := by
  intro len
  induction len with
  | zero =>
    intro j hj
    have hjk : j = k := by omega
    have hfull : ps.length * j / k = ps.length := by
      rw [hjk, Nat.mul_div_cancel _ (Nat.pos_of_ne_zero hk)]
    simp [hfull, List.drop_length]
  | succ len ih =>
    intro j hj
    rw [List.range'_succ, List.map_cons, List.flatten_cons, ih (j + 1) (by omega)]
    exact drop_take_append_drop ps _ _
      (Nat.div_le_div_right (Nat.mul_le_mul_left ps.length (Nat.le_succ j)))

theorem fallbackParseJSON_join (names : List String) (ps : List Product) :
    categoryProductsJoin (fallbackParseJSON names ps) = ps.map normalizeProduct := by
  unfold fallbackParseJSON
  by_cases hn : 0 < names.length
  · have hk : names.length ≠ 0 := by omega
    rw [if_pos hn]
    unfold categoryProductsJoin
    rw [List.map_map]
    have hfun :
        ((fun c => c.products) ∘ fun (x : Nat × String) =>
          createCategoryFromProducts x.2
            ((ps.drop (ps.length * x.1 / names.length)).take
              (ps.length * (x.1 + 1) / names.length - ps.length * x.1 / names.length))) =
        (fun (x : Nat × String) =>
          ((ps.drop (ps.length * x.1 / names.length)).take
            (ps.length * (x.1 + 1) / names.length -
              ps.length * x.1 / names.length)).map normalizeProduct) := by
      funext x
      rfl
    rw [hfun]
    have henum :
        names.enum.map (fun (x : Nat × String) =>
          ((ps.drop (ps.length * x.1 / names.length)).take
            (ps.length * (x.1 + 1) / names.length -
              ps.length * x.1 / names.length)).map normalizeProduct) =
        (List.range names.length).map (fun i =>
          ((ps.drop (ps.length * i / names.length)).take
            (ps.length * (i + 1) / names.length -
              ps.length * i / names.length)).map normalizeProduct) := by
      rw [← List.enum_map_fst names, List.map_map]
      rfl
    rw [henum]
    have hmm :
        (List.range names.length).map (fun i =>
          ((ps.drop (ps.length * i / names.length)).take
            (ps.length * (i + 1) / names.length -
              ps.length * i / names.length)).map normalizeProduct) =
        ((List.range names.length).map (fun i =>
          (ps.drop (ps.length * i / names.length)).take
            (ps.length * (i + 1) / names.length -
              ps.length * i / names.length))).map (List.map normalizeProduct) := by
      rw [List.map_map]
      rfl
    rw [hmm, ← List.map_flatten, List.range_eq_range']
    rw [sliceJoin ps names.length hk names.length 0 (by omega)]
    simp
  · rw [if_neg hn]
    simp [categoryProductsJoin, createCategoryFromProducts]

theorem fallbackParseJSON_partitions (names : List String) (ps : List Product) :
    Partitions (fallbackParseJSON names ps) ps := by
  have h := fallbackParseJSON_join names ps
  constructor
  · rw [h, List.length_map]
  · rw [h, List.map_map]
    have hcomp : normalizeProduct ∘ normalizeProduct = normalizeProduct :=
      funext normalizeProduct_idem
    rw [hcomp]

theorem updateKGroup_products (g : KGroup) (p : Product) :
    (updateKGroup g p).products = g.products ++ [p] := by
  unfold updateKGroup
  by_cases hp : p.price ≠ 0 <;> simp [hp]

theorem addToGroups_join_perm (gs : List KGroup) (cat : String) (p : Product) :
    (((addToGroups gs cat p).map (fun g => g.products)).flatten).Perm
      ((gs.map (fun g => g.products)).flatten ++ [p]) := by
  induction gs with
  | nil =>
    simp [addToGroups, updateKGroup_products, newKGroup]
  | cons g gs ih =>
    by_cases h : g.name = cat
    · simp only [addToGroups, h, if_true, List.map_cons, List.flatten_cons,
        updateKGroup_products]
      rw [List.append_assoc, List.append_assoc]
      exact List.Perm.append_left g.products List.perm_append_comm
    · simp only [addToGroups, h, if_false, List.map_cons, List.flatten_cons]
      rw [List.append_assoc]
      exact List.Perm.append_left g.products ih

theorem buildGroups_join_perm_aux (rules : KeywordRules) (dflt query : String) :
    ∀ (ps : List Product) (gs : List KGroup),
      (((ps.foldl (fun gs p =>
          addToGroups gs (keywordMatch rules dflt p.name query) p) gs).map
        (fun g => g.products)).flatten).Perm
      ((gs.map (fun g => g.products)).flatten ++ ps) := by
  intro ps
  induction ps with
  | nil => intro gs; simp
  | cons p ps ih =>
    intro gs
    simp only [List.foldl_cons]
    have h1 := ih (addToGroups gs (keywordMatch rules dflt p.name query) p)
    have h2 := (addToGroups_join_perm gs (keywordMatch rules dflt p.name query) p).append_right ps
    have h3 := h1.trans h2
    have h4 : (((gs.map (fun g => g.products)).flatten ++ [p]) ++ ps) =
        (gs.map (fun g => g.products)).flatten ++ (p :: ps) := by
      rw [List.append_assoc]
      rfl
    exact h4 ▸ h3

theorem useKeywordMatching_join_perm (rules : KeywordRules) (dflt : String)
    (ps : List Product) (query : String) :
    (categoryProductsJoin (useKeywordMatching rules dflt ps query)).Perm ps := by
  unfold useKeywordMatching categoryProductsJoin buildGroups
  rw [List.map_map]
  have hfun : ((fun c => c.products) ∘ kgroupToCategory) = (fun (g : KGroup) => g.products) := by
    funext g
    rfl
  rw [hfun]
  simpa using buildGroups_join_perm_aux rules dflt query ps []

theorem useKeywordMatching_partitions (rules : KeywordRules) (dflt : String)
    (ps : List Product) (query : String) :
    Partitions (useKeywordMatching rules dflt ps query) ps := by
  have h := useKeywordMatching_join_perm rules dflt ps query
  exact ⟨h.length_eq, h.map normalizeProduct⟩

/-! ## Provider-chain lemmas -/

/-- The providers invoked during a call, in invocation order. -/
def invokedNames (tr : List TraceEvent) : List String :=
  tr.filterMap (fun e => match e with | .invoke p => some p | .attempt _ _ => none)

/-- Whether provider `p` fails terminally on this call (its `tryProvider`
dispatch throws after exhausting whatever it was allowed to do). -/
def providerFailed (ctx : ServiceCtx) (env : LLMEnv) (ps : List Product) (query : String)
    (p : String) : Bool :=
  match (tryProviderRun ctx env ps query p).1 with
  | .ok _ => false
  | .error _ => true

theorem invokedNames_cons_invoke (p : String) (tr : List TraceEvent) :
    invokedNames (.invoke p :: tr) = p :: invokedNames tr := by
  simp [invokedNames, List.filterMap_cons]

theorem invokedNames_cons_attempt (p : String) (j : Nat) (tr : List TraceEvent) :
    invokedNames (.attempt p j :: tr) = invokedNames tr := by
  simp [invokedNames, List.filterMap_cons]

theorem invokedNames_append (a b : List TraceEvent) :
    invokedNames (a ++ b) = invokedNames a ++ invokedNames b := by
  simp [invokedNames, List.filterMap_append]

theorem geminiLoop_trace_events (env : LLMEnv) :
    ∀ fuel k e, e ∈ (geminiLoop env fuel k).2 → ∃ j, e = .attempt "gemini" j := by
  intro fuel
  induction fuel with
  | zero => intro k e he; simp [geminiLoop] at he
  | succ fuel ih =>
    intro k e he
    unfold geminiLoop at he
    cases hga : env.geminiAttempt k with
    | ok r =>
      rw [hga] at he
      simp at he
      exact ⟨k, he⟩
    | fail =>
      rw [hga] at he
      simp at he
      rcases he with he | he
      · exact ⟨k, he⟩
      · exact ih (k + 1) e he

theorem ollamaLoop_trace_events (env : LLMEnv) :
    ∀ fuel k e, e ∈ (ollamaLoop env fuel k).2 → ∃ j, e = .attempt "ollama" j := by
  intro fuel
  induction fuel with
  | zero => intro k e he; simp [ollamaLoop] at he
  | succ fuel ih =>
    intro k e he
    unfold ollamaLoop at he
    cases hga : env.ollamaAttempt k with
    | ok r =>
      rw [hga] at he
      simp at he
      exact ⟨k, he⟩
    | connRefused =>
      rw [hga] at he
      simp at he
      exact ⟨k, he⟩
    | fail =>
      rw [hga] at he
      simp at he
      rcases he with he | he
      · exact ⟨k, he⟩
      · exact ih (k + 1) e he

theorem invokedNames_geminiLoop (env : LLMEnv) (fuel k : Nat) :
    invokedNames (geminiLoop env fuel k).2 = [] := by
  unfold invokedNames
  rw [List.filterMap_eq_nil_iff]
  intro e he
  obtain ⟨j, rfl⟩ := geminiLoop_trace_events env fuel k e he
  rfl

theorem invokedNames_ollamaLoop (env : LLMEnv) (fuel k : Nat) :
    invokedNames (ollamaLoop env fuel k).2 = [] := by
  unfold invokedNames
  rw [List.filterMap_eq_nil_iff]
  intro e he
  obtain ⟨j, rfl⟩ := ollamaLoop_trace_events env fuel k e he
  rfl

theorem invokedNames_useGemini (ctx : ServiceCtx) (env : LLMEnv) (ps : List Product)
    (query : String) : invokedNames (useGemini ctx env ps query).2 = ["gemini"] := by
  unfold useGemini
  by_cases he : ctx.config.gemini.enabled && ctx.config.gemini.hasApiKey
  · rw [if_pos he]
    rcases hres : geminiLoop env ctx.config.gemini.maxRetries 1 with ⟨res, tr⟩
    have htr : invokedNames tr = [] := by
      have h := invokedNames_geminiLoop env ctx.config.gemini.maxRetries 1
      rw [hres] at h
      exact h
    cases res <;> simp [invokedNames_cons_invoke, htr]
  · rw [if_neg he]
    simp [invokedNames, List.filterMap_cons]

theorem invokedNames_useOllama (ctx : ServiceCtx) (env : LLMEnv) (ps : List Product)
    (query : String) : invokedNames (useOllama ctx env ps query).2 = ["ollama"] := by
  unfold useOllama
  by_cases he : ctx.config.ollama.enabled
  · rw [if_pos he]
    by_cases hh : env.ollamaHealthy
    · rw [if_pos hh]
      rcases hres : ollamaLoop env ctx.config.ollama.maxRetries 1 with ⟨stop, tr⟩
      have htr : invokedNames tr = [] := by
        have h := invokedNames_ollamaLoop env ctx.config.ollama.maxRetries 1
        rw [hres] at h
        exact h
      cases stop <;> simp [invokedNames_cons_invoke, htr]
    · rw [if_neg hh]
      simp [invokedNames, List.filterMap_cons]
  · rw [if_neg he]
    simp [invokedNames, List.filterMap_cons]

theorem invokedNames_tryProviderRun (ctx : ServiceCtx) (env : LLMEnv) (ps : List Product)
    (query : String) (p : String) :
    invokedNames (tryProviderRun ctx env ps query p).2 = [p] := by
  unfold tryProviderRun
  by_cases h1 : p = "ollama"
  · rw [if_pos h1, invokedNames_useOllama, h1]
  · rw [if_neg h1]
    by_cases h2 : p = "gemini"
    · rw [if_pos h2, invokedNames_useGemini, h2]
    · rw [if_neg h2]
      by_cases h3 : p = "keyword"
      · rw [if_pos h3, h3]
        simp [invokedNames, List.filterMap_cons]
      · rw [if_neg h3]
        simp [invokedNames, List.filterMap_cons]

theorem tryProviderRun_attempt_names (ctx : ServiceCtx) (env : LLMEnv) (ps : List Product)
    (query : String) (p q : String) (j : Nat)
    (hmem : TraceEvent.attempt q j ∈ (tryProviderRun ctx env ps query p).2) : q = p := by
  unfold tryProviderRun at hmem
  by_cases h1 : p = "ollama"
  · rw [if_pos h1] at hmem
    unfold useOllama at hmem
    by_cases he : ctx.config.ollama.enabled
    · rw [if_pos he] at hmem
      by_cases hh : env.ollamaHealthy
      · rw [if_pos hh] at hmem
        rcases hres : ollamaLoop env ctx.config.ollama.maxRetries 1 with ⟨stop, tr⟩
        rw [hres] at hmem
        have htr : ∀ e ∈ tr, ∃ i, e = TraceEvent.attempt "ollama" i := by
          intro e hee
          apply ollamaLoop_trace_events env ctx.config.ollama.maxRetries 1 e
          rw [hres]
          exact hee
        cases stop <;> simp at hmem <;>
          · obtain ⟨i, hi⟩ := htr _ hmem
            rw [h1]
            exact (TraceEvent.attempt.injEq _ _ _ _).mp hi |>.1
      · rw [if_neg hh] at hmem
        simp at hmem
    · rw [if_neg he] at hmem
      simp at hmem
  · rw [if_neg h1] at hmem
    by_cases h2 : p = "gemini"
    · rw [if_pos h2] at hmem
      unfold useGemini at hmem
      by_cases he : ctx.config.gemini.enabled && ctx.config.gemini.hasApiKey
      · rw [if_pos he] at hmem
        rcases hres : geminiLoop env ctx.config.gemini.maxRetries 1 with ⟨res, tr⟩
        rw [hres] at hmem
        have htr : ∀ e ∈ tr, ∃ i, e = TraceEvent.attempt "gemini" i := by
          intro e hee
          apply geminiLoop_trace_events env ctx.config.gemini.maxRetries 1 e
          rw [hres]
          exact hee
        cases res <;> simp at hmem <;>
          · obtain ⟨i, hi⟩ := htr _ hmem
            rw [h2]
            exact (TraceEvent.attempt.injEq _ _ _ _).mp hi |>.1
      · rw [if_neg he] at hmem
        simp at hmem
    · rw [if_neg h2] at hmem
      by_cases h3 : p = "keyword"
      · rw [if_pos h3] at hmem
        simp at hmem
      · rw [if_neg h3] at hmem
        simp at hmem

theorem tryProviderRun_gemini (ctx : ServiceCtx) (env : LLMEnv) (ps : List Product)
    (query : String) :
    tryProviderRun ctx env ps query "gemini" = useGemini ctx env ps query := by
  rfl

theorem tryProviderRun_ollama (ctx : ServiceCtx) (env : LLMEnv) (ps : List Product)
    (query : String) :
    tryProviderRun ctx env ps query "ollama" = useOllama ctx env ps query := by
  rfl

theorem tryProviderRun_keyword (ctx : ServiceCtx) (env : LLMEnv) (ps : List Product)
    (query : String) :
    tryProviderRun ctx env ps query "keyword" =
      (.ok (useKeywordMatching ctx.rules ctx.config.fallback.defaultCategory ps query),
        [.invoke "keyword"]) := by
  rfl

theorem providerFailed_keyword (ctx : ServiceCtx) (env : LLMEnv) (ps : List Product)
    (query : String) : providerFailed ctx env ps query "keyword" = false := by
  unfold providerFailed
  rw [tryProviderRun_keyword]

theorem geminiLoop_some_attempt (env : LLMEnv) :
    ∀ fuel k r, (geminiLoop env fuel k).1 = some r →
      ∃ j, k ≤ j ∧ j < k + fuel ∧ env.geminiAttempt j = .ok r := by
  intro fuel
  induction fuel with
  | zero => intro k r h; simp [geminiLoop] at h
  | succ fuel ih =>
    intro k r h
    unfold geminiLoop at h
    cases hga : env.geminiAttempt k with
    | ok r' =>
      rw [hga] at h
      simp at h
      exact ⟨k, Nat.le_refl k, by omega, by rw [hga, h]⟩
    | fail =>
      rw [hga] at h
      obtain ⟨j, h1, h2, h3⟩ := ih (k + 1) r h
      exact ⟨j, by omega, by omega, h3⟩

theorem ollamaLoop_got_attempt (env : LLMEnv) :
    ∀ fuel k r, (ollamaLoop env fuel k).1 = .gotResponse r →
      ∃ j, k ≤ j ∧ j < k + fuel ∧ env.ollamaAttempt j = .ok r := by
  intro fuel
  induction fuel with
  | zero => intro k r h; simp [ollamaLoop] at h
  | succ fuel ih =>
    intro k r h
    unfold ollamaLoop at h
    cases hga : env.ollamaAttempt k with
    | ok r' =>
      rw [hga] at h
      simp at h
      exact ⟨k, Nat.le_refl k, by omega, by rw [hga, h]⟩
    | connRefused =>
      rw [hga] at h
      simp at h
    | fail =>
      rw [hga] at h
      obtain ⟨j, h1, h2, h3⟩ := ih (k + 1) r h
      exact ⟨j, by omega, by omega, h3⟩

theorem geminiLoop_none_iff (env : LLMEnv) :
    ∀ fuel k, (geminiLoop env fuel k).1 = none ↔
      (∀ j r, k ≤ j → j < k + fuel → env.geminiAttempt j ≠ .ok r) := by
  intro fuel
  induction fuel with
  | zero =>
    intro k
    simp only [geminiLoop]
    constructor
    · intro _ j r h1 h2
      exact absurd h2 (by omega)
    · intro _
      trivial
  | succ fuel ih =>
    intro k
    unfold geminiLoop
    cases hga : env.geminiAttempt k with
    | ok r =>
      constructor
      · intro h
        exact Option.noConfusion h
      · intro h
        exact absurd hga (h k r (Nat.le_refl k) (by omega))
    | fail =>
      constructor
      · intro h j r h1 h2 hr
        by_cases hjk : j = k
        · rw [hjk, hga] at hr
          exact GeminiAttempt.noConfusion hr
        · exact (ih (k + 1)).mp h j r (by omega) (by omega) hr
      · intro h
        exact (ih (k + 1)).mpr (fun j r h1 h2 => h j r (by omega) (by omega))

/-- Terminal-failure characterisation for Gemini: the provider fails
exactly when it is disabled (or keyless) or all of its `maxRetries`
attempts came back unusable — i.e. only after its retry budget was spent. -/
theorem providerFailed_gemini_iff (ctx : ServiceCtx) (env : LLMEnv) (ps : List Product)
    (query : String) :
    providerFailed ctx env ps query "gemini" = true ↔
      ((ctx.config.gemini.enabled && ctx.config.gemini.hasApiKey) = false ∨
        ∀ j r, 1 ≤ j → j ≤ ctx.config.gemini.maxRetries → env.geminiAttempt j ≠ .ok r) := by
  unfold providerFailed
  rw [tryProviderRun_gemini]
  unfold useGemini
  by_cases he : ctx.config.gemini.enabled && ctx.config.gemini.hasApiKey
  · rw [if_pos he]
    have hiff := geminiLoop_none_iff env ctx.config.gemini.maxRetries 1
    rcases hres : geminiLoop env ctx.config.gemini.maxRetries 1 with ⟨res, tr⟩
    rw [hres] at hiff
    cases res with
    | some r =>
      simp only
      constructor
      · intro h
        exact absurd h (by simp)
      · intro h
        rcases h with h | h
        · rw [h] at he
          exact absurd he (by simp)
        · have hnone : (some r : Option LLMResponse) = none :=
            hiff.mpr (fun j r h1 h2 => h j r h1 (by omega))
          exact Option.noConfusion hnone
    | none =>
      simp only
      constructor
      · intro _
        right
        intro j r h1 h2
        exact hiff.mp rfl j r h1 (by omega)
      · intro _
        trivial
  · rw [if_neg he]
    simp only
    constructor
    · intro _
      left
      exact Bool.not_eq_true _ ▸ (by simpa using he)
    · intro _
      trivial

/-- What a successful `tryProvider` dispatch can yield: the keyword
grouping, or the parse of a response some Gemini/Ollama attempt returned. -/
theorem tryProviderRun_ok_cases (ctx : ServiceCtx) (env : LLMEnv) (ps : List Product)
    (query : String) (p : String) (cats : List Category)
    (h : (tryProviderRun ctx env ps query p).1 = .ok cats) :
    (cats = useKeywordMatching ctx.rules ctx.config.fallback.defaultCategory ps query) ∨
    (∃ r, cats = parseClassificationResult ctx.config.fallback.defaultCategory r ps ∧
      ((∃ j, env.geminiAttempt j = .ok r) ∨ (∃ j, env.ollamaAttempt j = .ok r))) := by
  unfold tryProviderRun at h
  by_cases h1 : p = "ollama"
  · rw [if_pos h1] at h
    unfold useOllama at h
    by_cases he : ctx.config.ollama.enabled
    · rw [if_pos he] at h
      by_cases hh : env.ollamaHealthy
      · rw [if_pos hh] at h
        rcases hres : ollamaLoop env ctx.config.ollama.maxRetries 1 with ⟨stop, tr⟩
        rw [hres] at h
        cases stop with
        | gotResponse r =>
          simp at h
          obtain ⟨j, _, _, hj⟩ := ollamaLoop_got_attempt env ctx.config.ollama.maxRetries 1 r
            (by rw [hres])
          exact Or.inr ⟨r, h.symm, Or.inr ⟨j, hj⟩⟩
        | refused => simp at h
        | exhausted => simp at h
      · rw [if_neg hh] at h
        simp at h
    · rw [if_neg he] at h
      simp at h
  · rw [if_neg h1] at h
    by_cases h2 : p = "gemini"
    · rw [if_pos h2] at h
      unfold useGemini at h
      by_cases he : ctx.config.gemini.enabled && ctx.config.gemini.hasApiKey
      · rw [if_pos he] at h
        rcases hres : geminiLoop env ctx.config.gemini.maxRetries 1 with ⟨res, tr⟩
        rw [hres] at h
        cases res with
        | some r =>
          simp at h
          obtain ⟨j, _, _, hj⟩ := geminiLoop_some_attempt env ctx.config.gemini.maxRetries 1 r
            (by rw [hres])
          exact Or.inr ⟨r, h.symm, Or.inl ⟨j, hj⟩⟩
        | none => simp at h
      · rw [if_neg he] at h
        simp at h
    · rw [if_neg h2] at h
      by_cases h3 : p = "keyword"
      · rw [if_pos h3] at h
        simp at h
        exact Or.inl h.symm
      · rw [if_neg h3] at h
        simp at h

theorem getLast?_cons_of_ne_nil {α : Type} (a : α) (l : List α) (h : l ≠ []) :
    (a :: l).getLast? = l.getLast? := by
  cases l with
  | nil => exact absurd rfl h
  | cons b l' => exact List.getLast?_cons_cons

theorem recordSuccess_preserves (now : Nat) (p q : String) (rt : Nat) (st : ServiceState)
    (h : q ≠ p) :
    List.lookup q (recordSuccess now p rt st).failureCount = List.lookup q st.failureCount ∧
    List.lookup q (recordSuccess now p rt st).performanceStats =
      List.lookup q st.performanceStats := by
  unfold recordSuccess
  exact ⟨lookup_mapSet_ne _ _ _ _ h, lookup_mapSet_ne _ _ _ _ h⟩

theorem recordFailure_preserves (now : Nat) (p q : String) (msg : String) (st : ServiceState)
    (h : q ≠ p) :
    List.lookup q (recordFailure now p msg st).failureCount = List.lookup q st.failureCount ∧
    List.lookup q (recordFailure now p msg st).performanceStats =
      List.lookup q st.performanceStats := by
  unfold recordFailure
  exact ⟨lookup_mapSet_ne _ _ _ _ h, lookup_mapSet_ne _ _ _ _ h⟩

/-- Providers outside the iterated list never have their health state
touched by the chain. -/
theorem runProviders_state_preserves (ctx : ServiceCtx) (env : LLMEnv) (ps : List Product)
    (query : String) :
    ∀ (provs : List String) (st : ServiceState) (q : String), q ∉ provs →
      List.lookup q (runProviders ctx env ps query provs st).2.1.failureCount =
        List.lookup q st.failureCount ∧
      List.lookup q (runProviders ctx env ps query provs st).2.1.performanceStats =
        List.lookup q st.performanceStats := by
  intro provs
  induction provs with
  | nil => intro st q _; exact ⟨rfl, rfl⟩
  | cons p rest ih =>
    intro st q hq
    have hqp : q ≠ p := fun h => hq (h ▸ List.mem_cons_self p rest)
    have hqrest : q ∉ rest := fun h => hq (List.mem_cons_of_mem p h)
    unfold runProviders
    rcases hpair : tryProviderRun ctx env ps query p with ⟨res, tr⟩
    cases res with
    | ok cats =>
      simp only
      exact recordSuccess_preserves env.now p q 0 st hqp
    | error e =>
      simp only
      have h1 := recordFailure_preserves env.now p q e st hqp
      have h2 := ih (recordFailure env.now p e st) q hqrest
      exact ⟨h2.1.trans h1.1, h2.2.trans h1.2⟩

/-- Every attempt event of the chain belongs to a provider of the list. -/
theorem runProviders_attempt_names (ctx : ServiceCtx) (env : LLMEnv) (ps : List Product)
    (query : String) :
    ∀ (provs : List String) (st : ServiceState) (q : String) (j : Nat),
      TraceEvent.attempt q j ∈ (runProviders ctx env ps query provs st).2.2 → q ∈ provs := by
  intro provs
  induction provs with
  | nil => intro st q j h; simp [runProviders] at h
  | cons p rest ih =>
    intro st q j h
    unfold runProviders at h
    rcases hpair : tryProviderRun ctx env ps query p with ⟨res, tr⟩
    rw [hpair] at h
    cases res with
    | ok cats =>
      simp only at h
      have : TraceEvent.attempt q j ∈ (tryProviderRun ctx env ps query p).2 := by
        rw [hpair]
        exact h
      exact (tryProviderRun_attempt_names ctx env ps query p q j this) ▸
        List.mem_cons_self p rest
    | error e =>
      simp only at h
      rcases List.mem_append.mp h with h | h
      · have : TraceEvent.attempt q j ∈ (tryProviderRun ctx env ps query p).2 := by
          rw [hpair]
          exact h
        exact (tryProviderRun_attempt_names ctx env ps query p q j this) ▸
          List.mem_cons_self p rest
      · exact List.mem_cons_of_mem p (ih (recordFailure env.now p e st) q j h)

/-- Structural description of one chain run: some prefix of the provider
list is invoked in order; every invoked provider except possibly the last
failed terminally; a success comes from the last invoked provider, which
did not fail; a chain error means every provider of the list failed. -/
theorem runProviders_structure (ctx : ServiceCtx) (env : LLMEnv) (ps : List Product)
    (query : String) :
    ∀ (provs : List String) (st : ServiceState),
      ∃ n, n ≤ provs.length ∧
        invokedNames (runProviders ctx env ps query provs st).2.2 = provs.take n ∧
        (∀ p ∈ (provs.take n).dropLast, providerFailed ctx env ps query p = true) ∧
        (match (runProviders ctx env ps query provs st).1 with
         | .ok pc =>
            (provs.take n).getLast? = some pc.1 ∧
            providerFailed ctx env ps query pc.1 = false ∧
            (tryProviderRun ctx env ps query pc.1).1 = .ok pc.2
         | .error _ =>
            n = provs.length ∧ ∀ p ∈ provs, providerFailed ctx env ps query p = true) := by
  intro provs
  induction provs with
  | nil =>
    intro st
    refine ⟨0, Nat.le_refl 0, rfl, ?_, ?_⟩
    · intro p hp
      simp at hp
    · simp only [runProviders]
      exact ⟨rfl, by intro p hp; simp at hp⟩
  | cons p rest ih =>
    intro st
    unfold runProviders
    rcases hpair : tryProviderRun ctx env ps query p with ⟨res, tr⟩
    have hinv : invokedNames tr = [p] := by
      have h := invokedNames_tryProviderRun ctx env ps query p
      rw [hpair] at h
      exact h
    cases res with
    | ok cats =>
      refine ⟨1, by simp, ?_, ?_, ?_⟩
      · simpa using hinv
      · intro q hq
        simp at hq
      · simp only
        refine ⟨by simp, ?_, ?_⟩
        · unfold providerFailed
          rw [hpair]
        · rw [hpair]
    | error e =>
      obtain ⟨n', hn', hinv', hfail', hmatch'⟩ := ih (recordFailure env.now p e st)
      have hpfail : providerFailed ctx env ps query p = true := by
        unfold providerFailed
        rw [hpair]
      refine ⟨n' + 1, by simp; omega, ?_, ?_, ?_⟩
      · simp only [invokedNames_append, hinv, hinv', List.take_succ_cons]
        rfl
      · intro q hq
        rw [List.take_succ_cons] at hq
        cases htake : rest.take n' with
        | nil =>
          rw [htake] at hq
          simp at hq
        | cons b l' =>
          rw [htake] at hq
          rw [List.dropLast_cons₂] at hq
          rcases List.mem_cons.mp hq with hq | hq
          · rw [hq]
            exact hpfail
          · apply hfail'
            rw [htake]
            exact hq
      · simp only
        cases hnext : (runProviders ctx env ps query rest (recordFailure env.now p e st)).1 with
        | ok res' =>
          rw [hnext] at hmatch'
          obtain ⟨hlast, hok, htry⟩ := hmatch'
          have htkne : rest.take n' ≠ [] := by
            intro hnil
            rw [hnil] at hlast
            simp at hlast
          rw [List.take_succ_cons, getLast?_cons_of_ne_nil p _ htkne]
          exact ⟨hlast, hok, htry⟩
        | error e' =>
          rw [hnext] at hmatch'
          obtain ⟨hlen, hall⟩ := hmatch'
          constructor
          · simp [hlen]
          · intro q hq
            rcases List.mem_cons.mp hq with hq | hq
            · rw [hq]
              exact hpfail
            · exact hall q hq

theorem categorizeSearchResults_state_trace (ctx : ServiceCtx) (env : LLMEnv)
    (st : ServiceState) (ps : List Product) (query : String) :
    (categorizeSearchResults ctx env st ps query).2 =
      (runProviders ctx env ps query (providersOf ctx.config) st).2 := by
  unfold categorizeSearchResults
  rcases hrun : runProviders ctx env ps query (providersOf ctx.config) st with ⟨res, st', tr⟩
  cases res with
  | ok pc =>
    rcases pc with ⟨p, cats⟩
    rfl
  | error e => rfl

/-- The demo product used by the concrete counterexamples and witnesses. -/
def pDemo : Product := { name := "烏龜缸", price := 100, platform := "pchome" }

/-- Demo context with both LLM providers disabled — the behaviour of the
default environment configuration (no `GEMINI_ENABLED`/`OLLAMA_ENABLED`). -/
def ctxBothDisabled : ServiceCtx :=
  { config :=
      { provider := "auto"
        fallbackOrder := ["gemini", "ollama", "keyword"]
        gemini := { enabled := false, hasApiKey := false, maxRetries := 3 }
        ollama := { enabled := false, maxRetries := 3 }
        fallback := { defaultCategory := "其他商品" } }
    rules := { brands := [], rules := [] } }

/-- Demo environment in which every network attempt fails. -/
def envAllFail : LLMEnv :=
  { geminiAttempt := fun _ => .fail
    ollamaAttempt := fun _ => .fail
    ollamaHealthy := false
    now := 0 }

/-- The empty provider-health state. -/
def stEmpty : ServiceState := { performanceStats := [], failureCount := [] }

/-- **C1** counterexample: invoked through `CrawlerManager.tryLLMCategorization`
with both LLM providers disabled (the configuration default), the
classification call THROWS instead of returning a non-error result — the
keyword fallback is unreachable on this path, refuting the claim for this
batch and provider-availability combination. -/
theorem tryLLMCategorization_throws_counterexample :
    (tryLLMCategorization ctxBothDisabled envAllFail stEmpty [pDemo] "烏龜").1 =
      Except.error "Ollama 未啟用" := by
  rfl

/-- **C1** (corrected). Fallback totality holds for the service entry
point `SmartLLMService.categorizeSearchResults` but not for the
`CrawlerManager.tryLLMCategorization` wrapper, which hard-codes
Gemini→Ollama, never invokes the keyword provider, and throws when both
fail (see the counterexample). For the entry point: whenever the keyword
provider is in the configured chain and no provider attempt yields a
strictly parsed response (any combination of disabled, unreachable or
parse-failing providers), the call returns a non-error result whose
categories partition the input batch — the member lists concatenate to
the batch's length and, up to the source's field defaulting, to a
permutation of the batch. A strictly parsed LLM response, by contrast, is
trusted for membership, so its categories need not partition the batch. -/
theorem categorize_fallback_totality (ctx : ServiceCtx) (env : LLMEnv) (st : ServiceState)
    (ps : List Product) (query : String)
    (hk : "keyword" ∈ providersOf ctx.config)
    (hg : ∀ j cats, env.geminiAttempt j ≠ .ok (.strict cats))
    (ho : ∀ j cats, env.ollamaAttempt j ≠ .ok (.strict cats)) :
    (categorizeSearchResults ctx env st ps query).1.success = true ∧
    Partitions (categorizeSearchResults ctx env st ps query).1.categories ps := by
  obtain ⟨n, hn, hinv, hpre, hmatch⟩ :=
    runProviders_structure ctx env ps query (providersOf ctx.config) st
  unfold categorizeSearchResults
  rcases hrun : runProviders ctx env ps query (providersOf ctx.config) st with ⟨res, st', tr⟩
  rw [hrun] at hmatch
  cases res with
  | error e =>
    exfalso
    obtain ⟨-, hall⟩ := hmatch
    have hkw := hall "keyword" hk
    rw [providerFailed_keyword] at hkw
    exact Bool.noConfusion hkw
  | ok pc =>
    rcases pc with ⟨p, cats⟩
    obtain ⟨-, -, htry⟩ := hmatch
    refine ⟨rfl, ?_⟩
    rcases tryProviderRun_ok_cases ctx env ps query p cats htry with hcats | ⟨r, hcats, hatt⟩
    · rw [hcats]
      exact useKeywordMatching_partitions _ _ _ _
    · cases r with
      | strict scats =>
        exfalso
        rcases hatt with ⟨j, hj⟩ | ⟨j, hj⟩
        · exact hg j scats hj
        · exact ho j scats hj
      | degraded names =>
        rw [hcats]
        exact fallbackParseJSON_partitions names ps

theorem categorize_fallback_totality_witness :
    (categorizeSearchResults ctxBothDisabled envAllFail stEmpty [pDemo] "烏龜").1.success =
      true ∧
    Partitions
      (categorizeSearchResults ctxBothDisabled envAllFail stEmpty [pDemo] "烏龜").1.categories
      [pDemo] :=
  categorize_fallback_totality ctxBothDisabled envAllFail stEmpty [pDemo] "烏龜"
    (by decide)
    (fun j cats h => GeminiAttempt.noConfusion h)
    (fun j cats h => OllamaAttempt.noConfusion h)

/-- **C3** counterexample: Gemini is disabled, yet running the
classification chain from the empty health state records a failure for
the skipped provider — its consecutive-failure counter and its
`totalRequests` statistic both become `1`, where the claim requires both
to stay unchanged (`none`/`0`). -/
theorem disabled_provider_counted_counterexample :
    List.lookup "gemini"
      (categorizeSearchResults ctxBothDisabled envAllFail stEmpty [pDemo] "q").2.1.failureCount =
      some 1 ∧
    (List.lookup "gemini"
        (categorizeSearchResults ctxBothDisabled envAllFail stEmpty
          [pDemo] "q").2.1.performanceStats).map
      (fun s => s.totalRequests) = some 1 := by
  constructor
  · rfl
  · rfl

/-- **C3** (corrected). A disabled provider is indeed skipped immediately
in the sense that no network attempt is made for it (no retry budget is
consumed and no attempt event appears in the trace) and the chain moves
on; but the skip IS counted as a failure attempt: the `catch` branch calls
`recordFailure`, so the provider's consecutive-failure counter and its
`totalRequests` statistic each increase by one. -/
theorem disabled_provider_skip_recorded (ctx : ServiceCtx) (env : LLMEnv) (st : ServiceState)
    (ps : List Product) (query : String) (rest : List String)
    (hprovs : providersOf ctx.config = "gemini" :: rest)
    (hnot : "gemini" ∉ rest)
    (hdis : (ctx.config.gemini.enabled && ctx.config.gemini.hasApiKey) = false) :
    (∀ j, TraceEvent.attempt "gemini" j ∉ (categorizeSearchResults ctx env st ps query).2.2) ∧
    List.lookup "gemini" (categorizeSearchResults ctx env st ps query).2.1.failureCount =
      some ((List.lookup "gemini" st.failureCount).getD 0 + 1) ∧
    (List.lookup "gemini"
        (categorizeSearchResults ctx env st ps query).2.1.performanceStats).map
      (fun s => s.totalRequests) =
      some (((List.lookup "gemini" st.performanceStats).map
        (fun s => s.totalRequests)).getD 0 + 1) := by
  have hpair : tryProviderRun ctx env ps query "gemini" =
      (Except.error "Gemini 未啟用或缺少 API Key", [TraceEvent.invoke "gemini"]) := by
    rw [tryProviderRun_gemini]
    unfold useGemini
    rw [if_neg (by simp [hdis])]
  have hstate := categorizeSearchResults_state_trace ctx env st ps query
  rw [hprovs] at hstate
  have hrunEq : runProviders ctx env ps query ("gemini" :: rest) st =
      ((runProviders ctx env ps query rest
          (recordFailure env.now "gemini" "Gemini 未啟用或缺少 API Key" st)).1,
        (runProviders ctx env ps query rest
          (recordFailure env.now "gemini" "Gemini 未啟用或缺少 API Key" st)).2.1,
        TraceEvent.invoke "gemini" ::
          (runProviders ctx env ps query rest
            (recordFailure env.now "gemini" "Gemini 未啟用或缺少 API Key" st)).2.2) := by
    conv_lhs => rw [runProviders]
    rw [hpair]
    rfl
  rw [hrunEq] at hstate
  refine ⟨?_, ?_, ?_⟩
  · intro j hmem
    rw [show (categorizeSearchResults ctx env st ps query).2.2 =
        ((categorizeSearchResults ctx env st ps query).2).2 from rfl,
      hstate] at hmem
    simp only at hmem
    rcases List.mem_cons.mp hmem with hmem | hmem
    · exact TraceEvent.noConfusion hmem
    · exact hnot (runProviders_attempt_names ctx env ps query rest _ "gemini" j hmem)
  · rw [show (categorizeSearchResults ctx env st ps query).2.1 =
        ((categorizeSearchResults ctx env st ps query).2).1 from rfl, hstate]
    simp only
    rw [(runProviders_state_preserves ctx env ps query rest _ "gemini" hnot).1]
    unfold recordFailure
    simp only
    exact lookup_mapSet_self _ _ _
  · rw [show (categorizeSearchResults ctx env st ps query).2.1 =
        ((categorizeSearchResults ctx env st ps query).2).1 from rfl, hstate]
    simp only
    rw [(runProviders_state_preserves ctx env ps query rest _ "gemini" hnot).2]
    unfold recordFailure
    simp only
    rw [lookup_mapSet_self]
    cases hl : List.lookup "gemini" st.performanceStats with
    | none => simp [hl]
    | some s => simp [hl]

theorem disabled_provider_skip_recorded_witness :
    List.lookup "gemini"
      (categorizeSearchResults ctxBothDisabled envAllFail stEmpty [pDemo] "w").2.1.failureCount =
      some 1 := by
  have h := (disabled_provider_skip_recorded ctxBothDisabled envAllFail stEmpty [pDemo] "w"
    ["ollama", "keyword"] rfl (by decide) rfl).2.1
  simpa using h

/-- Demo context whose configured priority order puts Ollama first. -/
def ctxOrderDemo : ServiceCtx :=
  { config :=
      { provider := "auto"
        fallbackOrder := ["ollama", "gemini", "keyword"]
        gemini := { enabled := true, hasApiKey := true, maxRetries := 1 }
        ollama := { enabled := true, maxRetries := 1 }
        fallback := { defaultCategory := "其他商品" } }
    rules := { brands := [], rules := [] } }

/-- Demo environment: Gemini attempts fail, Ollama answers at once with a
response whose JSON cannot be parsed. -/
def envOllamaOk : LLMEnv :=
  { geminiAttempt := fun _ => .fail
    ollamaAttempt := fun _ => .ok (.degraded [])
    ollamaHealthy := true
    now := 0 }

/-- **C4** counterexample: with the configured priority order listing
Ollama first, the classification invoked through
`CrawlerManager.tryLLMCategorization` still tries Gemini first — the
configured order is ignored on that path, refuting "providers are always
tried strictly in the configured priority order". -/
theorem provider_order_counterexample :
    (invokedNames
        (tryLLMCategorization ctxOrderDemo envOllamaOk stEmpty [pDemo] "q").2.2).head? =
      some "gemini" ∧
    (providersOf ctxOrderDemo.config).head? = some "ollama" := by
  constructor
  · rfl
  · rfl

/-- **C4** (corrected). Sequential ordering holds for
`SmartLLMService.categorizeSearchResults`: the providers invoked form a
prefix of the configured list, in order; every invoked provider except
the last failed terminally before the next was invoked; on success the
call returns at the successful provider, invoking no later one; the
keyword provider never fails; and Gemini fails exactly when it is
disabled/keyless or all of its `maxRetries` attempts were unusable — so a
next provider can also be reached by a disabled-skip or (for Ollama) a
connection-refused abort, not only by retry exhaustion. The
`tryLLMCategorization` wrapper, however, hard-codes Gemini→Ollama and
ignores the configured order (see the counterexample). -/
theorem categorize_sequential_order (ctx : ServiceCtx) (env : LLMEnv) (st : ServiceState)
    (ps : List Product) (query : String) :
    (∃ n, n ≤ (providersOf ctx.config).length ∧
      invokedNames (categorizeSearchResults ctx env st ps query).2.2 =
        (providersOf ctx.config).take n ∧
      (∀ p ∈ ((providersOf ctx.config).take n).dropLast,
        providerFailed ctx env ps query p = true)) ∧
    ((categorizeSearchResults ctx env st ps query).1.success = true →
      ∃ p, (categorizeSearchResults ctx env st ps query).1.provider = some p ∧
        (invokedNames (categorizeSearchResults ctx env st ps query).2.2).getLast? = some p ∧
        providerFailed ctx env ps query p = false) ∧
    providerFailed ctx env ps query "keyword" = false ∧
    (providerFailed ctx env ps query "gemini" = true ↔
      ((ctx.config.gemini.enabled && ctx.config.gemini.hasApiKey) = false ∨
        ∀ j r, 1 ≤ j → j ≤ ctx.config.gemini.maxRetries → env.geminiAttempt j ≠ .ok r)) := by
  obtain ⟨n, hn, hinv, hpre, hmatch⟩ :=
    runProviders_structure ctx env ps query (providersOf ctx.config) st
  unfold categorizeSearchResults
  rcases hrun : runProviders ctx env ps query (providersOf ctx.config) st with ⟨res, st', tr⟩
  rw [hrun] at hmatch hinv
  cases res with
  | ok pc =>
    rcases pc with ⟨p, cats⟩
    obtain ⟨hlast, hok, -⟩ := hmatch
    refine ⟨⟨n, hn, hinv, hpre⟩, ?_, providerFailed_keyword _ _ _ _,
      providerFailed_gemini_iff _ _ _ _⟩
    intro _
    refine ⟨p, rfl, ?_, hok⟩
    rw [hinv]
    exact hlast
  | error e =>
    refine ⟨⟨n, hn, hinv, hpre⟩, ?_, providerFailed_keyword _ _ _ _,
      providerFailed_gemini_iff _ _ _ _⟩
    intro hsucc
    exact absurd hsucc (by simp)

theorem categorize_sequential_order_witness :
    providerFailed ctxBothDisabled envAllFail [pDemo] "q" "keyword" = false ∧
    providerFailed ctxBothDisabled envAllFail [pDemo] "q" "gemini" = true :=
  ⟨(categorize_sequential_order ctxBothDisabled envAllFail stEmpty [pDemo] "q").2.2.1,
   (categorize_sequential_order ctxBothDisabled envAllFail stEmpty
      [pDemo] "q").2.2.2.mpr (Or.inl rfl)⟩

/-! ## Price-range recomputation (C5) -/

/-- Stated from the spec's words, for comparison: the claimed average is
`Math.round` of the mean over the members with positive price only
(`0` when there are none). -/
def specAvgOverPositive (ps : List Product) : Nat :=
  let prices := positivePrices ps
  if prices.isEmpty then 0 else jsRound prices.sum prices.length

theorem positivePrices_append (l₁ l₂ : List Product) :
    positivePrices (l₁ ++ l₂) = positivePrices l₁ ++ positivePrices l₂ := by
  unfold positivePrices
  rw [List.filter_append, List.map_append]

theorem positivePrices_map_normalize (ps : List Product) :
    positivePrices (ps.map normalizeProduct) = positivePrices ps := by
  unfold positivePrices
  induction ps with
  | nil => rfl
  | cons p ps ih =>
    rw [List.map_cons, List.filter_cons, List.filter_cons]
    have hpr : (normalizeProduct p).price = p.price := rfl
    rw [hpr]
    by_cases hp : 0 < p.price
    · rw [if_pos (by simpa using hp), if_pos (by simpa using hp),
        List.map_cons, List.map_cons, ih, hpr]
    · rw [if_neg (by simpa using hp), if_neg (by simpa using hp), ih]

theorem computePriceRange_map_normalize (ps : List Product) :
    computePriceRange (ps.map normalizeProduct) = computePriceRange ps := by
  unfold computePriceRange
  rw [positivePrices_map_normalize]

theorem isEmpty_append_singleton {α : Type} (l : List α) (x : α) :
    (l ++ [x]).isEmpty = false := by
  cases l <;> rfl

theorem mathMinList_append_singleton (l : List Nat) (x : Nat) :
    mathMinList (l ++ [x]) = if l.isEmpty then x else Nat.min (mathMinList l) x := by
  cases l with
  | nil => rfl
  | cons q qs =>
    simp only [List.cons_append, mathMinList, List.isEmpty_cons, Bool.false_eq_true, if_false]
    rw [List.foldl_append]
    rfl

theorem mathMaxList_append_singleton (l : List Nat) (x : Nat) :
    mathMaxList (l ++ [x]) = if l.isEmpty then x else Nat.max (mathMaxList l) x := by
  cases l with
  | nil => rfl
  | cons q qs =>
    simp only [List.cons_append, mathMaxList, List.isEmpty_cons, Bool.false_eq_true, if_false]
    rw [List.foldl_append]
    rfl

/-- The loop invariant of `useKeywordMatching`'s grouping pass: each
group's counter equals its member count and its running min/max equal the
min/max over the positively priced members. -/
def KGroupWF (g : KGroup) : Prop :=
  g.totalProducts = g.products.length ∧
  g.minPrice = (if (positivePrices g.products).isEmpty then none
    else some (mathMinList (positivePrices g.products))) ∧
  g.maxPrice = (if (positivePrices g.products).isEmpty then 0
    else mathMaxList (positivePrices g.products))

theorem newKGroup_wf (cat : String) : KGroupWF (newKGroup cat) := by
  refine ⟨rfl, ?_, ?_⟩ <;> rfl

theorem updateKGroup_wf (g : KGroup) (p : Product) (h : KGroupWF g) :
    KGroupWF (updateKGroup g p) := by
  obtain ⟨h1, h2, h3⟩ := h
  unfold KGroupWF updateKGroup
  by_cases hz : p.price = 0
  · have hcond : ¬ (p.price ≠ 0) := fun hne => hne hz
    simp only [if_neg hcond]
    have happ : positivePrices (g.products ++ [p]) = positivePrices g.products := by
      rw [positivePrices_append]
      simp [positivePrices, hz]
    refine ⟨by simp [h1], ?_, ?_⟩
    · show g.minPrice = _
      rw [happ]
      exact h2
    · show g.maxPrice = _
      rw [happ]
      exact h3
  · simp only [if_pos hz]
    have hpos : 0 < p.price := Nat.pos_of_ne_zero hz
    have happ : positivePrices (g.products ++ [p]) =
        positivePrices g.products ++ [p.price] := by
      rw [positivePrices_append]
      simp [positivePrices, hpos]
    refine ⟨by simp [h1], ?_, ?_⟩
    · show some _ = _
      rw [happ, mathMinList_append_singleton]
      cases hpp : (positivePrices g.products).isEmpty with
      | true => simp [h2, hpp, isEmpty_append_singleton]
      | false => simp [h2, hpp, isEmpty_append_singleton]
    · show Nat.max g.maxPrice p.price = _
      rw [happ, mathMaxList_append_singleton]
      cases hpp : (positivePrices g.products).isEmpty with
      | true => simp [h3, hpp, isEmpty_append_singleton]
      | false => simp [h3, hpp, isEmpty_append_singleton]

theorem addToGroups_wf (gs : List KGroup) (cat : String) (p : Product)
    (h : ∀ g ∈ gs, KGroupWF g) : ∀ g ∈ addToGroups gs cat p, KGroupWF g := by
  induction gs with
  | nil =>
    intro g hg
    simp only [addToGroups] at hg
    rcases List.mem_singleton.mp hg with rfl
    exact updateKGroup_wf _ p (newKGroup_wf cat)
  | cons g₀ gs ih =>
    intro g hg
    by_cases hname : g₀.name = cat
    · simp only [addToGroups, hname, if_true] at hg
      rcases List.mem_cons.mp hg with rfl | hg
      · exact updateKGroup_wf g₀ p (h g₀ (List.mem_cons_self _ _))
      · exact h g (List.mem_cons_of_mem _ hg)
    · simp only [addToGroups, hname, if_false] at hg
      rcases List.mem_cons.mp hg with rfl | hg
      · exact h g (List.mem_cons_self _ _)
      · exact ih (fun g' hg' => h g' (List.mem_cons_of_mem _ hg')) g hg

theorem buildGroups_wf (rules : KeywordRules) (dflt query : String) :
    ∀ (ps : List Product) (gs : List KGroup), (∀ g ∈ gs, KGroupWF g) →
      ∀ g ∈ ps.foldl (fun gs p =>
          addToGroups gs (keywordMatch rules dflt p.name query) p) gs, KGroupWF g := by
  intro ps
  induction ps with
  | nil => intro gs h g hg; exact h g hg
  | cons p ps ih =>
    intro gs h g hg
    simp only [List.foldl_cons] at hg
    exact ih _ (addToGroups_wf gs _ p h) g hg

/-- **C5** counterexample: a keyword-fallback category with members priced
`100` and `0` reports `avg = 50` — `Math.round` of the positive-price sum
divided by the count of ALL members — while the claim's average over
positively priced members alone is `100`. -/
theorem keyword_avg_counterexample :
    ((useKeywordMatching ⟨[], []⟩ "其他商品"
        [{ name := "a", price := 100, platform := "x" },
         { name := "b", price := 0, platform := "x" }] "").map
      (fun c => c.priceRange.avg)) = [50] ∧
    ((useKeywordMatching ⟨[], []⟩ "其他商品"
        [{ name := "a", price := 100, platform := "x" },
         { name := "b", price := 0, platform := "x" }] "").map
      (fun c => specAvgOverPositive c.products)) = [100] := by
  constructor
  · rfl
  · rfl

/-- **C5** (corrected). On the LLM-parsed path and the degraded fallback
path, every reported price range is recomputed from the category's actual
member products (min/max/avg over the positively priced members, `0` when
none) and `totalProducts` equals the member count; the provider-reported
price range is never used — replacing it by anything leaves the output
unchanged. On the keyword-fallback path, min and max likewise come from
the positively priced members and `totalProducts` equals the member
count, but the reported average divides the positive-price sum by the
number of ALL members, so zero-priced members drag the average down
(see the counterexample). -/
theorem priceRange_recomputed (dummy : Unit) :
    (∀ (dflt : String) (cats : List ParsedCat) (ps : List Product),
      ∀ c ∈ parseClassificationResult dflt (.strict cats) ps,
        c.priceRange = computePriceRange c.products ∧
        c.totalProducts = c.products.length) ∧
    (∀ (dflt : String) (cats : List ParsedCat) (ps : List Product)
        (f : ParsedCat → Option PriceRange),
      parseClassificationResult dflt
        (.strict (cats.map (fun pc => { pc with reportedPriceRange := f pc }))) ps =
      parseClassificationResult dflt (.strict cats) ps) ∧
    (∀ (names : List String) (ps : List Product),
      ∀ c ∈ fallbackParseJSON names ps,
        c.priceRange = computePriceRange c.products ∧
        c.totalProducts = c.products.length) ∧
    (∀ (rules : KeywordRules) (dflt : String) (ps : List Product) (query : String),
      ∀ c ∈ useKeywordMatching rules dflt ps query,
        c.totalProducts = c.products.length ∧
        c.priceRange.min = (computePriceRange c.products).min ∧
        c.priceRange.max = (computePriceRange c.products).max ∧
        c.priceRange.avg =
          jsRound ((c.products.map (fun p => p.price)).sum) c.products.length) := by
  refine ⟨?_, ?_, ?_, ?_⟩
  · intro dflt cats ps c hc
    unfold parseClassificationResult at hc
    obtain ⟨⟨i, pc⟩, -, rfl⟩ := List.mem_map.mp hc
    exact ⟨rfl, rfl⟩
  · intro dflt cats ps f
    have key : ∀ (l : List ParsedCat),
        parseClassificationResult dflt (.strict l) ps =
          l.enum.map (fun (x : Nat × ParsedCat) => validatedCategory dflt x.1 ps x.2) := by
      intro l
      rfl
    rw [key, key]
    unfold List.enum
    rw [List.enumFrom_map, List.map_map]
    apply List.map_congr_left
    intro x _
    rfl
  · intro names ps c hc
    unfold fallbackParseJSON at hc
    by_cases hn : 0 < names.length
    · rw [if_pos hn] at hc
      obtain ⟨⟨i, nm⟩, -, rfl⟩ := List.mem_map.mp hc
      refine ⟨?_, ?_⟩
      · show computePriceRange _ = computePriceRange (List.map normalizeProduct _)
        rw [computePriceRange_map_normalize]
      · show List.length _ = (List.map normalizeProduct _).length
        rw [List.length_map]
    · rw [if_neg hn] at hc
      rcases List.mem_singleton.mp hc with rfl
      refine ⟨?_, ?_⟩
      · show computePriceRange _ = computePriceRange (List.map normalizeProduct _)
        rw [computePriceRange_map_normalize]
      · show List.length _ = (List.map normalizeProduct _).length
        rw [List.length_map]
  · intro rules dflt ps query c hc
    unfold useKeywordMatching at hc
    obtain ⟨g, hg, rfl⟩ := List.mem_map.mp hc
    have hwf : KGroupWF g := buildGroups_wf rules dflt query ps [] (by intro g hg'; simp at hg')
      g hg
    obtain ⟨h1, h2, h3⟩ := hwf
    refine ⟨h1, ?_, ?_, rfl⟩
    · show g.minPrice.getD 0 = (computePriceRange g.products).min
      rw [h2]
      unfold computePriceRange
      cases hpp : (positivePrices g.products).isEmpty <;> simp [hpp]
    · show g.maxPrice = (computePriceRange g.products).max
      rw [h3]
      unfold computePriceRange
      cases hpp : (positivePrices g.products).isEmpty <;> simp [hpp]

/-- A demo strictly parsed provider category carrying a (to-be-ignored)
reported price range. -/
def pcDemo : ParsedCat :=
  { name := "手機", description := "", productIndexes := [0]
    reportedPriceRange := some ⟨1, 2, 3⟩ }

theorem priceRange_recomputed_witness :
    (validatedCategory "其他商品" 0 [pDemo] pcDemo).priceRange =
      computePriceRange (validatedCategory "其他商品" 0 [pDemo] pcDemo).products ∧
    parseClassificationResult "其他商品"
        (.strict ([pcDemo].map (fun pc => { pc with reportedPriceRange := none }))) [pDemo] =
      parseClassificationResult "其他商品" (.strict [pcDemo]) [pDemo] :=
  ⟨((priceRange_recomputed ()).1 "其他商品" [pcDemo] [pDemo]
      (validatedCategory "其他商品" 0 [pDemo] pcDemo)
      (List.mem_singleton.mpr rfl)).1,
   (priceRange_recomputed ()).2.1 "其他商品" [pcDemo] [pDemo] (fun _ => none)⟩

/-! ## Crawl isolation and empty-source behaviour (C2, C7) -/

/-- A settled platform fetch that contributes no products to the merge:
either it did not succeed, or it succeeded with an empty product list. -/
def yieldsNoProducts (s : SettledFetch) : Prop :=
  match s with
  | .fulfilled r => r.success = false ∨ r.products = []
  | .rejected _ => True

/-- When every requested platform contributes no products, the merged
product list is empty. -/
theorem mergedProducts_eq_nil (cenv : CrawlEnv) (platforms : List String)
    (h : ∀ p ∈ platforms, yieldsNoProducts (cenv.fetch p)) :
    mergedProducts cenv platforms = [] := by
  unfold mergedProducts
  rw [List.flatten_eq_nil_iff]
  intro l hl
  rw [List.mem_map] at hl
  obtain ⟨pr, hpr, hleq⟩ := hl
  rw [successfulResultsOf, List.mem_filterMap] at hpr
  obtain ⟨⟨p, s⟩, hps, hsome⟩ := hpr
  rw [settledFetches, List.mem_map] at hps
  obtain ⟨p', hp', heq⟩ := hps
  injection heq with h1 h2
  subst h1
  cases hf : cenv.fetch p' with
  | rejected m =>
    rw [hf] at h2; rw [← h2] at hsome
    exact Option.noConfusion hsome
  | fulfilled r =>
    rw [hf] at h2; rw [← h2] at hsome
    have hsome' : (if r.success = true then some (⟨p', r⟩ : PlatformResult) else none)
        = some pr := hsome
    have hy := h p' hp'
    rw [hf] at hy
    simp only [yieldsNoProducts] at hy
    by_cases hs : r.success = true
    · rcases hy with hy1 | hy2
      · rw [hs] at hy1; exact Bool.noConfusion hy1
      · rw [if_pos hs] at hsome'
        have hpr' : pr = ⟨p', r⟩ := (Option.some.inj hsome').symm
        rw [← hleq, hpr']
        show (r.products.map (tagPlatform p')) = []
        rw [hy2]; rfl
    · rw [if_neg hs] at hsome'
      exact Option.noConfusion hsome'

/-- Every platform whose fetch did not succeed is listed, with its
extracted reason, in the failed-platforms filter result. -/
theorem mem_failedPlatformsOf (cenv : CrawlEnv) (platforms : List String) (p : String)
    (hp : p ∈ platforms) (hf : fetchSucceeded (cenv.fetch p) = false) :
    (⟨p, failReason (cenv.fetch p)⟩ : FailedPlatform) ∈ failedPlatformsOf cenv platforms := by
  rw [failedPlatformsOf, List.mem_filterMap]
  refine ⟨(p, cenv.fetch p), ?_, ?_⟩
  · rw [settledFetches, List.mem_map]; exact ⟨p, hp, rfl⟩
  · rw [if_neg]; rw [hf]; exact Bool.noConfusion

/-- Every product of a successfully fulfilled platform fetch occurs, tagged
with its platform, in the merged product list. -/
theorem mem_mergedProducts (cenv : CrawlEnv) (platforms : List String) (p : String)
    (r : FetchResult) (q : Product) (hp : p ∈ platforms)
    (hf : cenv.fetch p = .fulfilled r) (hs : r.success = true) (hq : q ∈ r.products) :
    tagPlatform p q ∈ mergedProducts cenv platforms := by
  rw [mergedProducts, List.mem_flatten]
  refine ⟨r.products.map (tagPlatform p), ?_, List.mem_map_of_mem _ hq⟩
  rw [List.mem_map]
  refine ⟨⟨p, r⟩, ?_, rfl⟩
  rw [successfulResultsOf, List.mem_filterMap]
  refine ⟨(p, cenv.fetch p), ?_, ?_⟩
  · rw [settledFetches, List.mem_map]; exact ⟨p, hp, rfl⟩
  · rw [hf]; simp only [if_pos hs]

/-- A demo product returned by the momo fetch, with no platform tag of its
own. -/
def prodB : Product := { name := "momo商品", price := 500, platform := "" }

/-- A crawl environment where the momo fetch fulfils successfully with one
product while the pchome fetch is rejected with reason message boom. -/
def cenvDemo : CrawlEnv :=
  { fetch := fun p =>
      if p = "momo" then .fulfilled { success := true, products := [prodB], error := none }
      else .rejected (some "boom") }

/-- Category-summary search options over pchome and momo. -/
def optsCatDemo : SearchOptions :=
  { platforms := ["pchome", "momo"], enableCategorySummary := true, sortBy := "price" }

/-- Product-list search options over pchome and momo. -/
def optsListDemo : SearchOptions :=
  { platforms := ["pchome", "momo"], enableCategorySummary := false, sortBy := "price" }

/-- C2, counterexample: with the pchome fetch rejected (reason boom), the
momo fetch fulfilled successfully with one product, and both LLM providers
disabled so that `tryLLMCategorization` throws, `searchProducts` in
category mode returns the catch-all error shape: `success: false`,
`products: []` and an EMPTY `failedPlatforms` — the successful fetcher's
products are dropped and the failing platform is not reported, refuting
the claimed merge behaviour on this path. -/
theorem crawl_isolation_counterexample :
    (searchProducts ctxBothDisabled envAllFail stEmpty cenvDemo "q" optsCatDemo).1.success
        = false ∧
    (searchProducts ctxBothDisabled envAllFail stEmpty cenvDemo "q" optsCatDemo).1.products
        = some [] ∧
    (searchProducts ctxBothDisabled envAllFail stEmpty cenvDemo "q" optsCatDemo).1.failedPlatforms
        = [] ∧
    fetchSucceeded (cenvDemo.fetch "momo") = true ∧
    cenvDemo.fetch "momo" = .fulfilled { success := true, products := [prodB], error := none } :=
  ⟨rfl, rfl, rfl, rfl, rfl⟩

/-- C2, amended: no exception escapes `searchProducts` (total function), and
crawl isolation holds except on the classification-throw path: (1) whenever
the call succeeds, every platform whose fetch did not succeed is listed with
its extracted reason in `failedPlatforms`; (2) in product-list mode every
product of every successfully fulfilled fetch appears (platform-tagged) in
the returned products; (3) when the call reports failure — which happens
exactly when the classification step threw — the result carries the error
message but DROPS the successful fetchers' products (`products: []`) and
empties `failedPlatforms`. -/
theorem searchProducts_crawl_isolation (ctx : ServiceCtx) (env : LLMEnv) (st : ServiceState)
    (cenv : CrawlEnv) (keyword : String) (opts : SearchOptions) :
    ((searchProducts ctx env st cenv keyword opts).1.success = true →
      ∀ p ∈ opts.platforms, fetchSucceeded (cenv.fetch p) = false →
        (⟨p, failReason (cenv.fetch p)⟩ : FailedPlatform) ∈
          (searchProducts ctx env st cenv keyword opts).1.failedPlatforms) ∧
    (opts.enableCategorySummary = false →
      ∀ p ∈ opts.platforms, ∀ r : FetchResult, cenv.fetch p = .fulfilled r →
        r.success = true → ∀ q ∈ r.products,
          tagPlatform p q ∈ (searchProducts ctx env st cenv keyword opts).1.products.getD []) ∧
    ((searchProducts ctx env st cenv keyword opts).1.success = false →
      ∃ e, (searchProducts ctx env st cenv keyword opts).1.error = some e ∧
        (searchProducts ctx env st cenv keyword opts).1.products = some [] ∧
        (searchProducts ctx env st cenv keyword opts).1.failedPlatforms = []) := by
  simp only [searchProducts]
  by_cases hemp : (mergedProducts cenv opts.platforms).isEmpty = true
  · rw [if_pos hemp]
    refine ⟨?_, ?_, ?_⟩
    · intro _ p hp hf
      exact mem_failedPlatformsOf cenv opts.platforms p hp hf
    · intro _ p hp r hr hs q hq
      have hm := mem_mergedProducts cenv opts.platforms p r q hp hr hs hq
      rw [List.isEmpty_iff] at hemp
      rw [hemp] at hm
      exact absurd hm (List.not_mem_nil _)
    · intro hfalse
      exact Bool.noConfusion hfalse
  · rw [if_neg hemp]
    by_cases hsum : opts.enableCategorySummary = true
    · rw [if_pos hsum]
      rcases hres : tryLLMCategorization ctx env st (mergedProducts cenv opts.platforms) keyword
        with ⟨res, st', tr⟩
      cases res with
      | ok catResult =>
        refine ⟨?_, ?_, ?_⟩
        · intro _ p hp hf
          exact mem_failedPlatformsOf cenv opts.platforms p hp hf
        · intro hcat
          rw [hsum] at hcat
          exact Bool.noConfusion hcat
        · intro hfalse
          exact Bool.noConfusion hfalse
      | error e =>
        refine ⟨?_, ?_, ?_⟩
        · intro htrue
          exact Bool.noConfusion htrue
        · intro hcat
          rw [hsum] at hcat
          exact Bool.noConfusion hcat
        · intro _
          exact ⟨e, rfl, rfl, rfl⟩
    · rw [if_neg hsum]
      refine ⟨?_, ?_, ?_⟩
      · intro _ p hp hf
        exact mem_failedPlatformsOf cenv opts.platforms p hp hf
      · intro _ p hp r hr hs q hq
        have hm := mem_mergedProducts cenv opts.platforms p r q hp hr hs hq
        show tagPlatform p q ∈
          (some (sortProducts opts.sortBy (mergedProducts cenv opts.platforms))).getD []
        rw [Option.getD_some, sortProducts]
        by_cases hsb : opts.sortBy = "price_desc"
        · rw [if_pos hsb]
          exact ((List.mergeSort_perm _ _).mem_iff).mpr hm
        · rw [if_neg hsb]
          exact ((List.mergeSort_perm _ _).mem_iff).mpr hm
      · intro hfalse
        exact Bool.noConfusion hfalse

theorem searchProducts_crawl_isolation_witness :
    (⟨"pchome", "boom"⟩ : FailedPlatform) ∈
      (searchProducts ctxBothDisabled envAllFail stEmpty cenvDemo "q"
        optsListDemo).1.failedPlatforms ∧
    tagPlatform "momo" prodB ∈
      (searchProducts ctxBothDisabled envAllFail stEmpty cenvDemo "q"
        optsListDemo).1.products.getD [] := by
  refine ⟨?_, ?_⟩
  · exact (searchProducts_crawl_isolation ctxBothDisabled envAllFail stEmpty cenvDemo "q"
      optsListDemo).1 rfl "pchome" (by simp [optsListDemo]) rfl
  · exact (searchProducts_crawl_isolation ctxBothDisabled envAllFail stEmpty cenvDemo "q"
      optsListDemo).2.1 rfl "momo" (by simp [optsListDemo])
      { success := true, products := [prodB], error := none } rfl rfl prodB (by simp)

/-- C7, counterexample: with zero requested platforms `searchProducts` does
return `success: true` with zero products, but the classification pipeline's
output is `categories: []` — an EMPTY category list, not a single empty
category: no `c` makes the output `[c]`. -/
theorem empty_sources_counterexample :
    (searchProducts ctxBothDisabled envAllFail stEmpty cenvDemo "q"
      { platforms := [], enableCategorySummary := true, sortBy := "price" }).1.success = true ∧
    (searchProducts ctxBothDisabled envAllFail stEmpty cenvDemo "q"
      { platforms := [], enableCategorySummary := true, sortBy := "price" }).1.totalProducts
        = some 0 ∧
    (searchProducts ctxBothDisabled envAllFail stEmpty cenvDemo "q"
      { platforms := [], enableCategorySummary := true, sortBy := "price" }).1.categories
        = some [] ∧
    ∀ c : Category,
      (searchProducts ctxBothDisabled envAllFail stEmpty cenvDemo "q"
        { platforms := [], enableCategorySummary := true, sortBy := "price" }).1.categories
          ≠ some [c] := by
  refine ⟨rfl, rfl, rfl, ?_⟩
  intro c h
  rw [show (searchProducts ctxBothDisabled envAllFail stEmpty cenvDemo "q"
      { platforms := [], enableCategorySummary := true, sortBy := "price" }).1.categories
      = some ([] : List Category) from rfl] at h
  exact List.noConfusion (Option.some.inj h)

/-- C7, amended: when every requested platform fails or succeeds with no
products (zero enabled sources included), `searchProducts` returns the
well-formed empty-success shape — `success: true`, zero total products, no
error, category-summary mode — whose classification output is the EMPTY
category list `[]` (not a single empty category), and the service state is
untouched (no classification call is made). -/
theorem searchProducts_empty_sources (ctx : ServiceCtx) (env : LLMEnv) (st : ServiceState)
    (cenv : CrawlEnv) (keyword : String) (opts : SearchOptions)
    (h : ∀ p ∈ opts.platforms, yieldsNoProducts (cenv.fetch p)) :
    (searchProducts ctx env st cenv keyword opts).1.success = true ∧
    (searchProducts ctx env st cenv keyword opts).1.totalProducts = some 0 ∧
    (searchProducts ctx env st cenv keyword opts).1.categories = some [] ∧
    (searchProducts ctx env st cenv keyword opts).1.mode = some "category_summary" ∧
    (searchProducts ctx env st cenv keyword opts).1.error = none ∧
    (searchProducts ctx env st cenv keyword opts).2 = st := by
  have hnil : mergedProducts cenv opts.platforms = [] := mergedProducts_eq_nil cenv opts.platforms h
  simp only [searchProducts]
  rw [hnil]
  exact ⟨rfl, rfl, rfl, rfl, rfl, rfl⟩

theorem searchProducts_empty_sources_witness :
    (searchProducts ctxBothDisabled envAllFail stEmpty cenvDemo "q"
      { platforms := ["pchome"], enableCategorySummary := true, sortBy := "price" }).1.success
        = true ∧
    (searchProducts ctxBothDisabled envAllFail stEmpty cenvDemo "q"
      { platforms := ["pchome"], enableCategorySummary := true, sortBy := "price" }).1.totalProducts
        = some 0 ∧
    (searchProducts ctxBothDisabled envAllFail stEmpty cenvDemo "q"
      { platforms := ["pchome"], enableCategorySummary := true, sortBy := "price" }).1.categories
        = some [] := by
  have hmain := searchProducts_empty_sources ctxBothDisabled envAllFail stEmpty cenvDemo "q"
    { platforms := ["pchome"], enableCategorySummary := true, sortBy := "price" }
    (by
      intro p hp
      have hpe : p = "pchome" := by simpa using hp
      subst hpe
      exact trivial)
  exact ⟨hmain.1, hmain.2.1, hmain.2.2.1⟩

end SmartCompare
